import Mathlib

/-!
# grr: thread lifecycle and status-event protocol

A shallow embedding of `grr.go`.  A `Thread` owns a buffered status channel and a
context; `Start` drives one of three execution patterns and `Stop` cancels the
context, sends `ThreadFinished` and closes the channel.

The Go code is concurrent: `Start` runs in its own goroutine while the goroutine that
built the thread receives from `Status` and may call `Stop`.  The embedding is a
small-step machine: a `World` holds the thread, the control point of the `Start`
goroutine, the control point of the consumer goroutine, and a few history fields
(every message enqueued, every message received, the calls of `F`, the arguments of
`time.Sleep`).  A schedule is a list of `Action`s and `run` executes it.

Conventions.
* Go `int` is the 64-bit two's complement integer; the only arithmetic that can leave
  the range is `n + 3` in `makeThread`, which is wrapped by `wrapInt`.  `loops--` is
  guarded by `loops > 0` and cannot overflow.
* `message.Time` (wall clock) and `Thread.ID` (random UUID) carry no behaviour and
  are left out.
* `make(chan message, size)` is code of the Go runtime, not of the repository: it
  panics on a negative size and on a size above a limit of the runtime, which the
  model takes as the parameter `Runtime.maxChan`.
* `time.Sleep(d)` pauses for at least `d` and never for a negative time; the model
  records the arguments of the calls, and a list of pauses is possible when every pause
  is at least its argument and not negative (`pausesOk`).
* `F` is an arbitrary function on a caller-owned state; it returns normally and does
  not touch the thread.
* Memory accesses are sequentially consistent and every source statement is atomic.
-/

namespace Grr

/-! ## Machine integers -/

/-- Largest value of a Go `int` (64 bit). -/
def maxInt : Int := 9223372036854775807

/-- Smallest value of a Go `int` (64 bit). -/
def minInt : Int := -9223372036854775808

/-- Two's complement wrap-around of a mathematical integer into the range of `int`. -/
def wrapInt (x : Int) : Int :=
  (x + 9223372036854775808) % 18446744073709551616 - 9223372036854775808

/-- What the Go runtime and the machine fix and the repository does not: `maxChan` is the
largest size for which `make(chan message, size)` returns a channel.  Above it `make`
does not return: it panics with "size out of range" when `size` messages of 48 bytes
exceed what the allocator can hand out.  A channel of three messages can always be
made, and the limit is an `int`. -/
structure Runtime where
  maxChan : Int
  room : 3 ≤ maxChan
  bound : maxChan ≤ maxInt

/-- The runtime of linux/amd64 on a machine with memory to spare: the limit is the one
`make` checks there.  An allocation is at most 2^48 bytes, a message takes 48 bytes and
the channel header about 100, so a channel holds at most 5864062014803 messages. -/
def linuxAmd64 : Runtime :=
  { maxChan := 5864062014803, room := by decide, bound := by decide }

/-! ## Data model -/

/-- The Go type `ThreadType` with its three constants. -/
inductive ThreadType where
  | Simple
  | Iterator
  | Ticker
  deriving DecidableEq, Repr

/-- The Go type `StatCode` with its four constants. -/
inductive StatCode where
  | ThreadPending
  | ThreadStarted
  | ThreadFinished
  | ThreadIterate
  deriving DecidableEq, Repr

/-- The Go struct `message` without its `Time` field; `Additional` is `nil` or an `int`. -/
structure message where
  Msg : StatCode
  Additional : Option Int
  deriving DecidableEq, Repr

/-- The values a thread's `context.Context` carries: the two keys `iterations` and
`timer`, and whether its `Done()` channel is closed. -/
structure Context where
  iterations : Option Int
  timer : Option Int
  done : Bool
  deriving DecidableEq, Repr

/-- The context `context.Background()`: no value, never done. -/
def Context.Background : Context :=
  { iterations := none, timer := none, done := false }

/-- A Go channel of `message`: capacity, queued messages (head is the oldest), closed flag. -/
structure Chan where
  cap : Nat
  buf : List message
  closed : Bool
  deriving DecidableEq, Repr

/-- What a send statement `c <- m` does when it is executed. -/
inductive SendResult where
  | ok (c : Chan)
  | blocked
  | panics
  deriving DecidableEq, Repr

/-- The statement `c <- m`: panics on a closed channel, enqueues when the buffer has
room, and otherwise cannot proceed until a receiver makes room. -/
def Chan.send (c : Chan) (m : message) : SendResult :=
  if c.closed then .panics
  else if c.buf.length < c.cap then .ok { c with buf := c.buf ++ [m] }
  else .blocked

/-- The statement `close(c)`: `none` is the panic on a channel that is already closed. -/
def Chan.close (c : Chan) : Option Chan :=
  if c.closed then none else some { c with closed := true }

/-- The Go struct `Thread` (without `ID`); `F` acts on a state of type `α` owned by the caller. -/
structure Thread (α : Type) where
  ctx : Context
  Status : Chan
  Typ : ThreadType
  F : α → α

/-- How a call of a constructor ends: it returns, it panics, or it blocks forever. -/
inductive Outcome (β : Type) where
  | ret (b : β)
  | panics
  | blocks

/-- The message `message{time.Now(), ThreadPending, nil}`. -/
def pendingMsg : message := { Msg := .ThreadPending, Additional := none }

/-- The message `message{time.Now(), ThreadStarted, nil}`. -/
def startedMsg : message := { Msg := .ThreadStarted, Additional := none }

/-- The message `message{time.Now(), ThreadFinished, nil}`. -/
def finishedMsg : message := { Msg := .ThreadFinished, Additional := none }

/-- The message `message{time.Now(), ThreadIterate, i}` built by `Thread.iterate`. -/
def iterateMsg (i : Int) : message := { Msg := .ThreadIterate, Additional := some i }

/-- The function `makeThread`, run on the runtime `rt`.  `ctx.Value(iterations).(int)`
panics when the key is absent, `make` panics on a negative size and on a size above
`rt.maxChan`, and the send of `ThreadPending` blocks forever when the channel has no
buffer (nobody else holds the channel yet). -/
def makeThread {α : Type} (rt : Runtime) (ctx : Context) (t : ThreadType) (f : α → α) :
    Outcome (Thread α) :=
  let statusBuf : Option Int :=
    match t with
    | .Simple => some 3
    | _ => ctx.iterations.map (fun n => wrapInt (n + 3))
  match statusBuf with
  | none => .panics
  | some size =>
    if size < 0 ∨ rt.maxChan < size then .panics
    else
      match ({ cap := size.toNat, buf := [], closed := false } : Chan).send pendingMsg with
      | .ok statusChan => .ret { ctx := ctx, Status := statusChan, Typ := t, F := f }
      | .blocked => .blocks
      | .panics => .panics

/-- The constructor `NewSimple`. -/
def NewSimple {α : Type} (rt : Runtime) (f : α → α) : Outcome (Thread α) :=
  makeThread rt Context.Background .Simple f

/-- The constructor `NewIterator`. -/
def NewIterator {α : Type} (rt : Runtime) (f : α → α) (n : Int) : Outcome (Thread α) :=
  makeThread rt { Context.Background with iterations := some n } .Iterator f

/-- The constructor `NewTicker`; `t` is the `time.Duration` in nanoseconds. -/
def NewTicker {α : Type} (rt : Runtime) (f : α → α) (t : Int) (n : Int) :
    Outcome (Thread α) :=
  makeThread rt { Context.Background with timer := some t, iterations := some n } .Ticker f

/-- The constructor of the given pattern (`t` and `n` are unused where the pattern has no such argument). -/
def New {α : Type} (rt : Runtime) (ty : ThreadType) (f : α → α) (t : Int) (n : Int) :
    Outcome (Thread α) :=
  match ty with
  | .Simple => NewSimple rt f
  | .Iterator => NewIterator rt f n
  | .Ticker => NewTicker rt f t n

/-! ## The machine -/

/-- Control points inside `Stop`: lines 180-182, lines 184-188, line 190. -/
inductive StopPC where
  | cancel
  | send
  | close
  deriving DecidableEq, Repr

/-- Control points of a call of `Start`.
`started`: line 128; `switch`: line 134; `simple`: line 136; `loop l`: the loop guard
(lines 141, 159) with `loops = l`; `iterate l`: `t.iterate(loops)` after `loops--`;
`select l`: the `select` statement; `call l`: `t.F()` in the default branch;
`tick l`: the rest of the loop body (lines 168-170 for a Ticker); `stop s`: inside
the call `t.Stop()` of line 175; `done`: `Start` has returned. -/
inductive PC where
  | started
  | switch
  | simple
  | loop (loops : Int)
  | iterate (loops : Int)
  | select (loops : Int)
  | call (loops : Int)
  | tick (loops : Int)
  | stop (s : StopPC)
  | done
  deriving DecidableEq, Repr

/-- A run-time panic; an unrecovered panic in any goroutine ends the program. -/
inductive Fault where
  | sendOnClosed (m : message)
  | closeOfClosed
  | nilAssertion
  deriving DecidableEq, Repr

/-- The state of the program: the thread, the `Start` goroutine, the consumer goroutine
(`caller = some s` while it is inside a call of `Stop`), the state `F` works on, and
history: `sent` every message enqueued, `seen` every message received, `calls` the
invocations of `F`, `slept` the arguments of `time.Sleep`, `clear` the `select`s that
took the default branch, `stops` the external calls of `Stop` that returned, `closes`
the executions of `close` that succeeded. -/
structure World (α : Type) where
  t : Thread α
  pc : PC
  caller : Option StopPC
  user : α
  fault : Option Fault
  sent : List message
  seen : List message
  calls : Nat
  slept : List Int
  clear : Nat
  stops : Nat
  closes : Nat

/-- The program state right after a constructor returned `t`: `Start` not yet begun. -/
def World.boot {α : Type} (t : Thread α) (u : α) : World α :=
  { t := t, pc := .started, caller := none, user := u, fault := none,
    sent := t.Status.buf, seen := [], calls := 0, slept := [], clear := 0,
    stops := 0, closes := 0 }

/-- The statement `t.Status <- m`, continuing with `k` once the message is enqueued. -/
def trySend {α : Type} (m : message) (k : World α → World α) (w : World α) : World α :=
  match w.t.Status.send m with
  | .ok c => k { w with t := { w.t with Status := c }, sent := w.sent ++ [m] }
  | .blocked => w
  | .panics => { w with fault := some (.sendOnClosed m) }

/-- The method `Thread.iterate`. -/
def iterate {α : Type} (i : Int) (k : World α → World α) (w : World α) : World α :=
  trySend (iterateMsg i) k w

/-- One statement of the method `Stop` at control point `s`; `goto` moves the calling
goroutine to the next control point of `Stop` (`none`: `Stop` returned). -/
def Stop {α : Type} (s : StopPC) (goto : Option StopPC → World α → World α) (w : World α) :
    World α :=
  match s with
  | .cancel => goto (some .send) { w with t := { w.t with ctx := { w.t.ctx with done := true } } }
  | .send => trySend finishedMsg (goto (some .close)) w
  | .close =>
    match w.t.Status.close with
    | some c => goto none { w with t := { w.t with Status := c }, closes := w.closes + 1 }
    | none => { w with fault := some .closeOfClosed }

/-- Move the `Start` goroutine to control point `p`. -/
def jump {α : Type} (p : PC) (w : World α) : World α := { w with pc := p }

/-- Where `Start` continues after a statement of its own call of `Stop`. -/
def startGoto {α : Type} (o : Option StopPC) (w : World α) : World α :=
  match o with
  | some s => { w with pc := .stop s }
  | none => { w with pc := .done }

/-- Where the consumer continues after a statement of its call of `Stop`. -/
def callerGoto {α : Type} (o : Option StopPC) (w : World α) : World α :=
  match o with
  | some s => { w with caller := some s }
  | none => { w with caller := none, stops := w.stops + 1 }

/-- The invocation `t.F()`. -/
def callF {α : Type} (w : World α) : World α :=
  { w with user := w.t.F w.user, calls := w.calls + 1 }

/-- Whether `pauses` can be the times the calls `time.Sleep(d)` of `args` paused for, one
pause per call in order: `time.Sleep(d)` pauses for at least `d`, and never for a
negative time. -/
def pausesOk : List Int → List Int → Bool
  | [], [] => true
  | d :: args, p :: pauses => decide (d ≤ p) && decide (0 ≤ p) && pausesOk args pauses
  | _, _ => false

/-- One statement of the method `Start`, executed by its goroutine. -/
def Start {α : Type} (w : World α) : World α :=
  match w.pc with
  | .started => trySend startedMsg (jump .switch) w
  | .switch =>
    match w.t.Typ with
    | .Simple => jump .simple w
    | .Iterator =>
      match w.t.ctx.iterations with
      | some loops => jump (.loop loops) w
      | none => { w with fault := some .nilAssertion }
    | .Ticker =>
      match w.t.ctx.timer, w.t.ctx.iterations with
      | some _, some loops => jump (.loop loops) w
      | _, _ => { w with fault := some .nilAssertion }
  | .simple => jump (.stop .cancel) (callF w)
  | .loop loops => if loops > 0 then jump (.iterate (loops - 1)) w else jump (.stop .cancel) w
  | .iterate loops => iterate loops (jump (.select loops)) w
  | .select loops =>
    if w.t.ctx.done then jump (.stop .cancel) w
    else jump (.call loops) { w with clear := w.clear + 1 }
  | .call loops => jump (.tick loops) (callF w)
  | .tick loops =>
    match w.t.Typ, w.t.ctx.timer with
    | .Ticker, some td =>
      if loops ≠ 0 then jump (.loop loops) { w with slept := w.slept ++ [td] }
      else jump (.loop loops) w
    | _, _ => jump (.loop loops) w
  | .stop s => Stop s startGoto w
  | .done => w

/-- The receive of the consumer's `for out := range t.Status`: takes the oldest message,
and does nothing on an empty channel. -/
def recv {α : Type} (w : World α) : World α :=
  match w.t.Status.buf with
  | m :: rest => { w with t := { w.t with Status := { w.t.Status with buf := rest } },
                          seen := w.seen ++ [m] }
  | [] => w

/-- What the scheduler lets happen next: a statement of `Start`, a statement of an
external call of `Stop` made by the consumer, or a receive by the consumer. -/
inductive Action where
  | start
  | stop
  | recv
  deriving DecidableEq, Repr

/-- One step of the program.  Nothing runs after a panic; the consumer is one goroutine,
so it does not receive while it is inside `Stop`. -/
def step {α : Type} (a : Action) (w : World α) : World α :=
  match w.fault with
  | some _ => w
  | none =>
    match a with
    | .start => Start w
    | .stop =>
      match w.caller with
      | none => Stop .cancel callerGoto w
      | some s => Stop s callerGoto w
    | .recv =>
      match w.caller with
      | none => recv w
      | some _ => w

/-- Execute a schedule from left to right. -/
def run {α : Type} (sched : List Action) (w : World α) : World α :=
  sched.foldl (fun w a => step a w) w

/-- Number of statements of `Start` in a schedule. -/
def starts (sched : List Action) : Nat := sched.count .start

/-- A schedule in which nobody calls `Stop` from outside. -/
def stopFree (sched : List Action) : Prop := ∀ a ∈ sched, a ≠ Action.stop

/-- The `Start` goroutine is at a send statement and the buffer of the open channel is full. -/
def sendBlocked {α : Type} (w : World α) : Bool :=
  (match w.pc with
   | .started => true
   | .iterate _ => true
   | .stop .send => true
   | _ => false) && !w.t.Status.closed && decide (w.t.Status.cap ≤ w.t.Status.buf.length)

/-- The messages `Iterate(n-1), ..., Iterate(l)` in the order they are sent. -/
def iterEvents (n l : Int) : List message :=
  (List.range (n - l).toNat).map (fun (i : Nat) => iterateMsg (n - 1 - (i : Int)))

/-- Number of `ThreadIterate` messages in a list. -/
def iterCount (ms : List message) : Nat := (ms.filter (fun m => m.Msg = .ThreadIterate)).length

instance : DecidablePred stopFree := fun sched => by unfold stopFree; infer_instance

/-! ## What an undisturbed run looks like at each control point -/

/-- Number of loop passes of an undisturbed run: none for `Simple`, the budget otherwise. -/
def passes (ty : ThreadType) (n : Int) : Int :=
  match ty with
  | .Simple => 0
  | _ => n

/-- The context the constructor of a pattern builds. -/
def ctxOf (ty : ThreadType) (d n : Int) : Context :=
  match ty with
  | .Simple => Context.Background
  | .Iterator => { Context.Background with iterations := some n }
  | .Ticker => { Context.Background with timer := some d, iterations := some n }

/-- The thread the constructor of a pattern returns when it returns. -/
def fresh {α : Type} (ty : ThreadType) (f : α → α) (d n : Int) : Thread α :=
  { ctx := ctxOf ty d n,
    Status := { cap := (passes ty n + 3).toNat, buf := [pendingMsg], closed := false },
    Typ := ty,
    F := f }

/-- The control points an undisturbed run of a thread with `m` passes visits. -/
def validPC (ty : ThreadType) (m : Int) (pc : PC) : Prop :=
  match pc with
  | .simple => ty = .Simple
  | .loop l => ty ≠ .Simple ∧ 0 ≤ l ∧ l ≤ m
  | .iterate l => ty ≠ .Simple ∧ 0 ≤ l ∧ l < m
  | .select l => ty ≠ .Simple ∧ 0 ≤ l ∧ l < m
  | .call l => ty ≠ .Simple ∧ 0 ≤ l ∧ l < m
  | .tick l => ty ≠ .Simple ∧ 0 ≤ l ∧ l < m
  | _ => True

/-- The messages enqueued so far when an undisturbed run is at a control point. -/
def expSent (m : Int) (pc : PC) : List message :=
  match pc with
  | .started => [pendingMsg]
  | .switch => [pendingMsg, startedMsg]
  | .simple => [pendingMsg, startedMsg]
  | .loop l => [pendingMsg, startedMsg] ++ iterEvents m l
  | .iterate l => [pendingMsg, startedMsg] ++ iterEvents m (l + 1)
  | .select l => [pendingMsg, startedMsg] ++ iterEvents m l
  | .call l => [pendingMsg, startedMsg] ++ iterEvents m l
  | .tick l => [pendingMsg, startedMsg] ++ iterEvents m l
  | .stop .cancel => [pendingMsg, startedMsg] ++ iterEvents m 0
  | .stop .send => [pendingMsg, startedMsg] ++ iterEvents m 0
  | .stop .close => [pendingMsg, startedMsg] ++ iterEvents m 0 ++ [finishedMsg]
  | .done => [pendingMsg, startedMsg] ++ iterEvents m 0 ++ [finishedMsg]

/-- The invocations of `F` so far when an undisturbed run is at a control point. -/
def expCalls (ty : ThreadType) (m : Int) (pc : PC) : Int :=
  match pc with
  | .started => 0
  | .switch => 0
  | .simple => 0
  | .loop l => m - l
  | .iterate l => m - l - 1
  | .select l => m - l - 1
  | .call l => m - l - 1
  | .tick l => m - l
  | .stop _ => if ty = .Simple then 1 else m
  | .done => if ty = .Simple then 1 else m

/-- The calls of `time.Sleep` so far when an undisturbed Ticker run is at a control point. -/
def expSleeps (m : Int) (pc : PC) : Int :=
  match pc with
  | .started => 0
  | .switch => 0
  | .simple => 0
  | .loop l => if l = 0 then m - 1 else m - l
  | .iterate l => m - l - 1
  | .select l => m - l - 1
  | .call l => m - l - 1
  | .tick l => m - l - 1
  | .stop _ => m - 1
  | .done => m - 1

/-- Whether `Start` has cancelled the context at a control point of an undisturbed run. -/
def expDone (pc : PC) : Bool :=
  match pc with
  | .stop .send => true
  | .stop .close => true
  | .done => true
  | _ => false

/-- Statements of `Start` still to execute at a control point of an undisturbed run. -/
def rank (ty : ThreadType) (m : Int) (pc : PC) : Nat :=
  match pc with
  | .started => if ty = .Simple then 6 else 5 * m.toNat + 6
  | .switch => if ty = .Simple then 5 else 5 * m.toNat + 5
  | .simple => 4
  | .loop l => 5 * l.toNat + 4
  | .iterate l => 5 * l.toNat + 8
  | .select l => 5 * l.toNat + 7
  | .call l => 5 * l.toNat + 6
  | .tick l => 5 * l.toNat + 5
  | .stop .cancel => 3
  | .stop .send => 2
  | .stop .close => 1
  | .done => 0

/-- The states of a run of `Start` on a freshly built thread of pattern `ty` (delay `d`,
budget `n`, function `f`, caller state `u`) in which nobody calls `Stop` from outside. -/
structure Undisturbed {α : Type} (ty : ThreadType) (d n : Int) (f : α → α) (u : α)
    (w : World α) : Prop where
  fault : w.fault = none
  caller : w.caller = none
  stops : w.stops = 0
  typ : w.t.Typ = ty
  fn : w.t.F = f
  iterations : w.t.ctx.iterations = (ctxOf ty d n).iterations
  timer : w.t.ctx.timer = (ctxOf ty d n).timer
  cap : (w.t.Status.cap : Int) = passes ty n + 3
  fifo : w.seen ++ w.t.Status.buf = w.sent
  user : w.user = f^[w.calls] u
  valid : validPC ty (passes ty n) w.pc
  sent : w.sent = expSent (passes ty n) w.pc
  calls : (w.calls : Int) = expCalls ty (passes ty n) w.pc
  slept : w.slept = if ty = .Ticker then List.replicate (expSleeps n w.pc).toNat d else []
  done : w.t.ctx.done = expDone w.pc
  closed : w.t.Status.closed = decide (w.pc = .done)
  closes : w.closes = if w.pc = .done then 1 else 0

/-! ## Facts about every run -/

/-- One when the `Start` goroutine has passed the `select` of a pass and is about to invoke `F`. -/
def inflight (pc : PC) : Nat :=
  match pc with
  | .call _ => 1
  | _ => 0

/-- What holds in every state reachable from a freshly built thread, whatever the schedule. -/
structure Sound {α : Type} (w : World α) : Prop where
  fifo : w.seen ++ w.t.Status.buf = w.sent
  stopped : 0 < w.stops → w.t.Status.closed = true
  closedDone : w.t.Status.closed = true → w.t.ctx.done = true
  startDone : (w.pc = .stop .send ∨ w.pc = .stop .close ∨ w.pc = .done) → w.t.ctx.done = true
  callerDone : (w.caller = some .send ∨ w.caller = some .close) → w.t.ctx.done = true
  finished : (w.t.Status.closed = true ∨ w.pc = .stop .close ∨ w.caller = some .close) →
    finishedMsg ∈ w.sent
  callerCancel : w.caller ≠ some .cancel

/-- What holds in every state reachable from a freshly built Iterator or Ticker. -/
structure Looping {α : Type} (w : World α) : Prop where
  typ : w.t.Typ ≠ .Simple
  pc : w.pc ≠ .simple
  calls : w.calls + inflight w.pc = w.clear

/-- The context is cancelled, `c` counts the invocations of `F` including the one in
flight, and at most `i` invocations are in flight. -/
def Quiet {α : Type} (c i : Nat) (w : World α) : Prop :=
  w.t.ctx.done = true ∧ w.calls + inflight w.pc = c ∧ inflight w.pc ≤ i

/-- The state an external `Stop` leaves behind for `Start`: the channel is closed, the
signal is set and `Start` has not returned. -/
def Ended {α : Type} (w : World α) : Prop :=
  w.t.Status.closed = true ∧ w.t.ctx.done = true ∧ w.pc ≠ .done

/-- An upper bound on the statements `Start` executes from a control point before it
reaches a send or a `close`, once the signal is set. -/
def toPanic (pc : PC) : Nat :=
  match pc with
  | .started => 1
  | .switch => 4
  | .simple => 3
  | .loop _ => 3
  | .iterate _ => 1
  | .select _ => 3
  | .call _ => 5
  | .tick _ => 4
  | .stop .cancel => 2
  | .stop .send => 1
  | .stop .close => 1
  | .done => 0

/-- How the successful executions of `close` are accounted for in every state: one per
external `Stop` that returned and one if `Start` has returned, and at most one in all. -/
structure Tally {α : Type} (w : World α) : Prop where
  count : w.closes = w.stops + (if w.pc = .done then 1 else 0)
  once : w.closes ≤ 1
  unclosed : w.t.Status.closed = false → w.closes = 0

/-- The thread `NewTicker(f, d, n)` returns, written from the thread `NewIterator(f, n)`
returns: the pattern is `Ticker` and the context also carries the delay. -/
def Thread.asTicker {α : Type} (d : Int) (t : Thread α) : Thread α :=
  { t with Typ := .Ticker, ctx := { t.ctx with timer := some d } }

/-- A state of a Ticker program written from the state of an Iterator program: the same
state but for the pattern, the delay in the context and the log of `time.Sleep`. -/
def World.asTicker {α : Type} (d : Int) (sl : List Int) (w : World α) : World α :=
  { w with t := w.t.asTicker d, slept := sl }

/-- One when the `Start` goroutine has invoked `F` and not yet reached the end of the pass. -/
def ticking (pc : PC) : Nat :=
  match pc with
  | .tick _ => 1
  | _ => 0

/-- A Ticker state `wT` and an Iterator state `wI` that differ only in the pattern, the
delay, and the log of sleeps, where every sleep is `d` long and follows its own invocation. -/
def Mirror {α : Type} (d : Int) (wT wI : World α) : Prop :=
  wI.t.Typ = .Iterator ∧ wI.slept = [] ∧
    ∃ sl, wT = wI.asTicker d sl ∧ (∀ x ∈ sl, x = d) ∧ sl.length + ticking wI.pc ≤ wI.calls

/-- Idle control points: where `Start` can be when its loop never runs. -/
def idlePC (pc : PC) : Prop :=
  match pc with
  | .started => True
  | .switch => True
  | .loop l => l < 1
  | .stop _ => True
  | .done => True
  | _ => False

/-- What holds in every state of an Iterator or Ticker whose budget is below 1. -/
structure Idle {α : Type} (w : World α) : Prop where
  typ : w.t.Typ ≠ .Simple
  budget : ∀ n, w.t.ctx.iterations = some n → n < 1
  pc : idlePC w.pc
  calls : w.calls = 0

/-! ## Undisturbed runs -/

theorem iterEvents_length (m l : Int) : (iterEvents m l).length = (m - l).toNat := by
  simp [iterEvents]

theorem iterEvents_self (m : Int) : iterEvents m m = [] := by
  simp [iterEvents]

theorem iterEvents_succ (m l : Int) (_h0 : 0 ≤ l) (h1 : l < m) :
    iterEvents m l = iterEvents m (l + 1) ++ [iterateMsg l] := by
  unfold iterEvents
  have h : (m - l).toNat = (m - (l + 1)).toNat + 1 := by omega
  rw [h, List.range_succ, List.map_append]
  simp
  congr 1
  omega

theorem wrapInt_eq (x : Int) (h0 : minInt ≤ x) (h1 : x ≤ maxInt) : wrapInt x = x := by
  unfold wrapInt
  unfold minInt at h0
  unfold maxInt at h1
  omega

theorem New_ret {α : Type} (rt : Runtime) (ty : ThreadType) (f : α → α) (d n : Int)
    (h0 : ty ≠ .Simple → 0 ≤ n) (h1 : ty ≠ .Simple → n + 3 ≤ rt.maxChan) :
    New rt ty f d n = .ret (fresh ty f d n) := by
  have hb := rt.bound
  have hr := rt.room
  cases ty
  · simp [New, NewSimple, makeThread, Chan.send, ctxOf, passes, fresh, hr]
  · have h0 := h0 (by simp)
    have h1 := h1 (by simp)
    have hw : wrapInt (n + 3) = n + 3 :=
      wrapInt_eq _ (by unfold minInt; omega) (by omega)
    have h2 : ¬ (n + 3 < 0 ∨ rt.maxChan < n + 3) := by omega
    have h3 : 0 < (n + 3).toNat := by omega
    simp [New, NewIterator, makeThread, Chan.send, ctxOf, passes, hw, h2, h3, fresh]
  · have h0 := h0 (by simp)
    have h1 := h1 (by simp)
    have hw : wrapInt (n + 3) = n + 3 :=
      wrapInt_eq _ (by unfold minInt; omega) (by omega)
    have h2 : ¬ (n + 3 < 0 ∨ rt.maxChan < n + 3) := by omega
    have h3 : 0 < (n + 3).toNat := by omega
    simp [New, NewTicker, makeThread, Chan.send, ctxOf, passes, hw, h2, h3, fresh]

theorem undisturbed_boot {α : Type} (ty : ThreadType) (f : α → α) (d n : Int) (u : α)
    (h0 : ty ≠ .Simple → 0 ≤ n) :
    Undisturbed ty d n f u (World.boot (fresh ty f d n) u) := by
  have hp : 0 ≤ passes ty n := by
    cases ty <;> simp [passes] <;> exact h0 (by simp)
  constructor <;> simp [World.boot, fresh, validPC, expSent, expCalls, expSleeps, expDone]
  · omega
  · cases ty <;> simp [ctxOf, Context.Background]

theorem undisturbed_recv {α : Type} {ty : ThreadType} {d : Int} {n : Int} {f : α → α} {u : α}
    {w : World α} (h : Undisturbed ty d n f u w) :
    Undisturbed ty d n f u (recv w) ∧ (recv w).pc = w.pc := by
  obtain ⟨h1, h2, h3, h4, h5, h6, h7, h8, h9, h10, h11, h12, h13, h14, h15, h16, h17⟩ := h
  unfold recv
  cases hb : w.t.Status.buf with
  | nil => exact ⟨⟨h1, h2, h3, h4, h5, h6, h7, h8, h9, h10, h11, h12, h13, h14, h15, h16, h17⟩, rfl⟩
  | cons m rest =>
    refine ⟨⟨h1, h2, h3, h4, h5, h6, h7, h8, ?_, h10, h11, h12, h13, h14, h15, h16, h17⟩, rfl⟩
    simp [← h9, hb]

theorem trySend_ok {α : Type} (m : message) (k : World α → World α) (w : World α)
    (hc : w.t.Status.closed = false) (hl : w.t.Status.buf.length < w.t.Status.cap) :
    trySend m k w = k { w with t := { w.t with Status := { w.t.Status with buf := w.t.Status.buf ++ [m] } },
                               sent := w.sent ++ [m] } := by
  simp [trySend, Chan.send, hc, hl]

theorem undisturbed_room {α : Type} {ty : ThreadType} {d : Int} {n : Int} {f : α → α} {u : α}
    {w : World α} (h : Undisturbed ty d n f u w) (hn : ty ≠ .Simple → 0 ≤ n)
    (hpc : w.pc = .started ∨ (∃ l, w.pc = .iterate l) ∨ w.pc = .stop .send) :
    w.t.Status.buf.length < w.t.Status.cap := by
  have hp : 0 ≤ passes ty n := by
    cases ty <;> simp [passes] <;> exact hn (by simp)
  have h1 : w.t.Status.buf.length ≤ w.sent.length := by
    rw [← h.fifo]; simp
  have h2 := h.sent
  have h3 := h.cap
  have h4 := h.valid
  rcases hpc with hpc | ⟨l, hpc⟩ | hpc <;> rw [hpc] at h2 h4 <;>
    simp [expSent, validPC] at h2 h4 <;> rw [h2] at h1 <;>
    simp [iterEvents_length] at h1 <;> omega

set_option maxHeartbeats 4000000 in
theorem undisturbed_start {α : Type} {ty : ThreadType} {d : Int} {n : Int} {f : α → α} {u : α}
    {w : World α} (h : Undisturbed ty d n f u w) (hn : ty ≠ .Simple → 0 ≤ n) :
    Undisturbed ty d n f u (Start w) ∧
      rank ty (passes ty n) (Start w).pc = rank ty (passes ty n) w.pc - 1 := by
  have hroom := undisturbed_room h hn
  have hp : 0 ≤ passes ty n := by
    cases ty <;> simp [passes] <;> exact hn (by simp)
  obtain ⟨h1, h2, h3, h4, h5, h6, h7, h8, h9, h10, h11, h12, h13, h14, h15, h16, h17⟩ := h
  rcases w with ⟨⟨⟨its, tm, dn⟩, ⟨cap, buf, closed⟩, typ, F⟩, pc, caller, user, fault, sent,
    seen, calls, slept, clear, stops, closes⟩
  simp only at h1 h2 h3 h4 h5 h6 h7 h8 h9 h10 h11 h12 h13 h14 h15 h16 h17 hroom
  subst h1 h2 h3 h4 h5 h6 h7
  cases pc with
  | started =>
    have hr := hroom (Or.inl rfl)
    simp [expDone] at h15 h16
    subst h15 h16
    simp only [Start, trySend, Chan.send, hr, jump]
    simp only [Bool.false_eq_true, if_false, if_true]
    refine ⟨?_, ?_⟩
    · constructor <;> first
        | (rw [← h9]; simp; done)
        | (simp_all [validPC, expSent, expCalls, expSleeps, expDone]; done)
    · simp [rank]; split <;> omega
  | switch =>
    simp [expDone] at h15 h16
    subst h15 h16
    cases typ
    · simp only [Start, jump]
      refine ⟨?_, ?_⟩
      · constructor <;> simp_all [validPC, expSent, expCalls, expSleeps, expDone]
      · simp [rank]
    · simp only [Start, jump, ctxOf]
      refine ⟨?_, ?_⟩
      · constructor <;> simp_all [validPC, expSent, expCalls, expSleeps, expDone, passes, iterEvents_self, ctxOf]
      · simp [rank, passes]
    · simp only [Start, jump, ctxOf]
      refine ⟨?_, ?_⟩
      · constructor <;> first
          | (simp_all [validPC, expSent, expCalls, expSleeps, expDone, passes, iterEvents_self, ctxOf]; done)
          | (simp_all [validPC, expSent, expCalls, expSleeps, expDone, passes, iterEvents_self, ctxOf]; split <;> omega)
      · simp [rank, passes]
  | simple =>
    simp [expDone] at h15 h16
    subst h15 h16
    simp only [Start, jump, callF]
    refine ⟨?_, ?_⟩
    · constructor <;> first
        | (simp_all [validPC, expSent, expCalls, expSleeps, expDone, passes, iterEvents_self, ctxOf]; done)
    · simp [rank]
  | loop l =>
    simp [expDone] at h15 h16
    subst h15 h16
    simp only [validPC] at h11
    obtain ⟨hty, hl0, hlm⟩ := h11
    by_cases hl : l > 0
    · simp only [Start, jump, hl, if_true]
      have hl2 : ¬ l = 0 := by omega
      have hl3 : n - (l - 1) - 1 = n - l := by omega
      refine ⟨?_, ?_⟩
      · constructor <;> first
          | (simp only [h14, expSleeps, hl2, hl3, if_false]; done)
          | (simp_all [validPC, expSent, expCalls, expSleeps, expDone, passes, iterEvents_self, ctxOf]; done)
          | (simp_all [validPC, expSent, expCalls, expSleeps, expDone, passes, iterEvents_self, ctxOf]; omega)
      · simp [rank]; omega
    · have hl1 : l = 0 := by omega
      subst hl1
      simp only [Start, jump, hl, if_false]
      refine ⟨?_, ?_⟩
      · constructor <;> first
          | (simp_all [validPC, expSent, expCalls, expSleeps, expDone, passes, iterEvents_self, ctxOf]; done)
      · simp [rank]
  | iterate l =>
    have hr := hroom (Or.inr (Or.inl ⟨l, rfl⟩))
    simp [expDone] at h15 h16
    subst h15 h16
    simp only [validPC] at h11
    obtain ⟨hty, hl0, hlm⟩ := h11
    have hs := iterEvents_succ (passes typ n) l hl0 hlm
    simp only [Start, iterate, trySend, Chan.send, hr, jump]
    simp only [Bool.false_eq_true, if_false, if_true]
    refine ⟨?_, ?_⟩
    · constructor <;> first
        | (rw [← h9]; simp; done)
        | (simp_all [validPC, expSent, expCalls, expSleeps, expDone, passes, iterEvents_self, ctxOf]; done)
    · simp [rank]
  | select l =>
    simp [expDone] at h15 h16
    subst h15 h16
    simp only [validPC] at h11
    obtain ⟨hty, hl0, hlm⟩ := h11
    simp only [Start, jump]
    simp only [Bool.false_eq_true, if_false, if_true]
    refine ⟨?_, ?_⟩
    · constructor <;> first
        | (simp_all [validPC, expSent, expCalls, expSleeps, expDone, passes, iterEvents_self, ctxOf]; done)
    · simp [rank]
  | call l =>
    simp [expDone] at h15 h16
    subst h15 h16
    simp only [validPC] at h11
    obtain ⟨hty, hl0, hlm⟩ := h11
    simp only [Start, jump, callF]
    refine ⟨?_, ?_⟩
    · constructor <;> first
        | (simp only [h10, Function.iterate_succ_apply']; done)
        | (simp_all [validPC, expSent, expCalls, expSleeps, expDone, passes, iterEvents_self, ctxOf]; done)
    · simp [rank]
  | tick l =>
    simp [expDone] at h15 h16
    subst h15 h16
    simp only [validPC] at h11
    obtain ⟨hty, hl0, hlm⟩ := h11
    cases typ
    · exact absurd rfl hty
    · simp only [Start, jump, ctxOf]
      refine ⟨?_, ?_⟩
      · constructor <;> first
          | (simp_all [validPC, expSent, expCalls, expSleeps, expDone, passes, iterEvents_self, ctxOf]; done)
          | (simp_all [validPC, expSent, expCalls, expSleeps, expDone, passes, iterEvents_self, ctxOf]; omega)
      · simp [rank]
    · simp only [Start, jump, ctxOf]
      by_cases hl : l = 0
      · subst hl
        simp only [ne_eq, not_true, if_false]
        refine ⟨?_, ?_⟩
        · constructor <;> first
            | (simp_all [validPC, expSent, expCalls, expSleeps, expDone, passes, iterEvents_self, ctxOf]; done)
        · simp [rank]
      · simp only [ne_eq, hl, not_false_eq_true, if_true]
        have hl3 : (n - l).toNat = (n - l - 1).toNat + 1 := by
          simp only [passes] at hlm
          omega
        refine ⟨?_, ?_⟩
        · constructor <;> clear hl3 <;> first
            | (have hl3 : (n - l).toNat = (n - l - 1).toNat + 1 := by
                 simp only [passes] at hlm
                 omega
               simp only [h14, expSleeps, hl, hl3, if_false, if_true, List.replicate_succ']; done)
            | (simp_all [validPC, expSent, expCalls, expSleeps, expDone, passes, iterEvents_self, ctxOf]; done)
            | (simp_all [validPC, expSent, expCalls, expSleeps, expDone, passes, iterEvents_self, ctxOf]; omega)
        · simp [rank]
  | stop s =>
    cases s with
    | cancel =>
      simp [expDone] at h15 h16
      subst h15 h16
      simp only [Start, Stop, startGoto]
      refine ⟨?_, ?_⟩
      · constructor <;> first
          | (simp_all [validPC, expSent, expCalls, expSleeps, expDone, passes, iterEvents_self, ctxOf]; done)
      · simp [rank]
    | send =>
      have hr := hroom (Or.inr (Or.inr rfl))
      simp [expDone] at h15 h16
      subst h15 h16
      simp only [Start, Stop, trySend, Chan.send, hr, startGoto]
      simp only [Bool.false_eq_true, if_false, if_true]
      refine ⟨?_, ?_⟩
      · constructor <;> first
          | (rw [← h9]; simp; done)
          | (simp_all [validPC, expSent, expCalls, expSleeps, expDone, passes, iterEvents_self, ctxOf]; done)
      · simp [rank]
    | close =>
      simp [expDone] at h15 h16
      subst h15 h16
      simp only [Start, Stop, Chan.close, startGoto]
      simp only [Bool.false_eq_true, if_false, if_true]
      refine ⟨?_, ?_⟩
      · constructor <;> first
          | (simp_all [validPC, expSent, expCalls, expSleeps, expDone, passes, iterEvents_self, ctxOf]; done)
      · simp [rank]
  | done =>
    simp only [Start]
    exact ⟨⟨rfl, rfl, rfl, rfl, rfl, rfl, rfl, h8, h9, h10, h11, h12, h13, h14, h15, h16, h17⟩, rfl⟩

theorem run_nil {α : Type} (w : World α) : run [] w = w := rfl

theorem run_cons {α : Type} (a : Action) (s : List Action) (w : World α) :
    run (a :: s) w = run s (step a w) := rfl

theorem run_append {α : Type} (s1 s2 : List Action) (w : World α) :
    run (s1 ++ s2) w = run s2 (run s1 w) := by
  simp [run, List.foldl_append]

theorem undisturbed_run {α : Type} {ty : ThreadType} {d : Int} {n : Int} {f : α → α} {u : α}
    (hn : ty ≠ .Simple → 0 ≤ n) (sched : List Action) (hfree : stopFree sched) :
    ∀ w : World α, Undisturbed ty d n f u w →
      Undisturbed ty d n f u (run sched w) ∧
        rank ty (passes ty n) (run sched w).pc = rank ty (passes ty n) w.pc - starts sched := by
  induction sched with
  | nil => intro w h; exact ⟨h, by simp [run_nil, starts]⟩
  | cons a s ih =>
    intro w h
    have hs : stopFree s := fun b hb => hfree b (List.mem_cons_of_mem _ hb)
    have ha : a ≠ Action.stop := hfree a (List.mem_cons_self _ _)
    rw [run_cons]
    cases a with
    | start =>
      have h1 := undisturbed_start h hn
      have hstep : step Action.start w = Start w := by simp [step, h.fault]
      rw [hstep]
      obtain ⟨h2, h3⟩ := ih hs (Start w) h1.1
      refine ⟨h2, ?_⟩
      rw [h3, h1.2]
      simp [starts]
      omega
    | stop => exact absurd rfl ha
    | recv =>
      have h1 := undisturbed_recv h
      have hstep : step Action.recv w = recv w := by simp [step, h.fault, h.caller]
      rw [hstep]
      obtain ⟨h2, h3⟩ := ih hs (recv w) h1.1
      refine ⟨h2, ?_⟩
      rw [h3, h1.2]
      simp [starts]

theorem rank_zero (ty : ThreadType) (m : Int) (pc : PC) (h : rank ty m pc = 0) : pc = .done := by
  cases pc with
  | stop s => cases s <;> simp [rank] at h
  | started => simp [rank] at h; split at h <;> omega
  | switch => simp [rank] at h; split at h <;> omega
  | _ => simp [rank] at h <;> rfl

theorem undisturbed_sendBlocked {α : Type} {ty : ThreadType} {d : Int} {n : Int} {f : α → α}
    {u : α} {w : World α} (h : Undisturbed ty d n f u w) (hn : ty ≠ .Simple → 0 ≤ n) :
    sendBlocked w = false := by
  have hroom := undisturbed_room h hn
  unfold sendBlocked
  cases hpc : w.pc with
  | started => have := hroom (Or.inl hpc); simp; intro _; omega
  | iterate l => have := hroom (Or.inr (Or.inl ⟨l, hpc⟩)); simp; intro _; omega
  | stop s =>
    cases s with
    | send => have := hroom (Or.inr (Or.inr hpc)); simp; intro _; omega
    | _ => simp
  | _ => simp

/-- The final state of an undisturbed run. -/
theorem undisturbed_final {α : Type} {ty : ThreadType} {d : Int} {n : Int} {f : α → α} {u : α}
    (hn : ty ≠ .Simple → 0 ≤ n) (sched : List Action) (hfree : stopFree sched)
    (hlong : rank ty (passes ty n) .started ≤ starts sched) :
    Undisturbed ty d n f u (run sched (World.boot (fresh ty f d n) u)) ∧
      (run sched (World.boot (fresh ty f d n) u)).pc = .done := by
  obtain ⟨h1, h2⟩ := undisturbed_run hn sched hfree _ (undisturbed_boot ty f d n u hn)
  refine ⟨h1, rank_zero ty (passes ty n) _ ?_⟩
  rw [h2]
  simp only [World.boot]
  omega

/-! ## Runs without an external Stop: the claims -/

theorem iterCount_append (a b : List message) : iterCount (a ++ b) = iterCount a + iterCount b := by
  simp [iterCount]

theorem iterCount_iterEvents (m l : Int) : iterCount (iterEvents m l) = (m - l).toNat := by
  simp [iterCount, iterEvents, List.filter_map, iterateMsg]
  rw [List.filter_eq_self.mpr]
  · simp
  · intro a _; simp

theorem New_iterator {α : Type} (rt : Runtime) (f : α → α) (d n : Int) :
    New rt .Iterator f d n = NewIterator rt f n := rfl

theorem New_ticker {α : Type} (rt : Runtime) (f : α → α) (d n : Int) :
    New rt .Ticker f d n = NewTicker rt f d n := rfl

theorem New_simple {α : Type} (rt : Runtime) (f : α → α) (d n : Int) :
    New rt .Simple f d n = NewSimple rt f := rfl

/-- C1 (amended): on every runtime, for every budget `n` with `0 < n` for which the
channel can be made (`n + 3` is at most the largest size `make` accepts) and every
function `f`, `NewIterator(f, n)` returns a thread, and every run of `Start` without an
external `Stop` (with or without a consumer receiving), once `Start` has executed its
`5n + 6` statements, has enqueued exactly Pending, Started, Iterate(n-1), ...,
Iterate(0), Finished, that is `n` Iterate events, has invoked `f` exactly `n` times, and
has returned with the channel closed and without a panic. -/
theorem iterator_trace {α : Type} (rt : Runtime) (f : α → α) (u : α) (n : Int)
    (sched : List Action)
    (hpos : 0 < n) (hmax : n + 3 ≤ rt.maxChan) (hfree : stopFree sched)
    (hlong : 5 * n.toNat + 6 ≤ starts sched) :
    ∃ t, NewIterator rt f n = .ret t ∧
      (run sched (World.boot t u)).sent =
        [pendingMsg, startedMsg] ++
          (List.range n.toNat).map (fun (i : Nat) => iterateMsg (n - 1 - (i : Int))) ++
          [finishedMsg] ∧
      iterCount (run sched (World.boot t u)).sent = n.toNat ∧
      (run sched (World.boot t u)).calls = n.toNat ∧
      (run sched (World.boot t u)).user = f^[n.toNat] u ∧
      (run sched (World.boot t u)).pc = .done ∧
      (run sched (World.boot t u)).fault = none ∧
      (run sched (World.boot t u)).t.Status.closed = true := by
  have hn : ThreadType.Iterator ≠ .Simple → 0 ≤ n := fun _ => by omega
  refine ⟨fresh .Iterator f 0 n, ?_, ?_⟩
  · rw [← New_iterator rt f 0 n]
    exact New_ret rt .Iterator f 0 n hn (fun _ => hmax)
  · obtain ⟨h, hpc⟩ := undisturbed_final (d := 0) (f := f) (u := u) hn sched hfree
      (by simpa [rank, passes] using hlong)
    have hsent := h.sent
    have hcalls := h.calls
    have huser := h.user
    have hclosed := h.closed
    rw [hpc] at hsent hcalls hclosed
    simp only [expSent, expCalls, passes] at hsent hcalls
    have hc : (run sched (World.boot (fresh ThreadType.Iterator f 0 n) u)).calls = n.toNat := by
      simp at hcalls
      omega
    refine ⟨?_, ?_, hc, ?_, hpc, h.fault, ?_⟩
    · rw [hsent]; simp [iterEvents]
    · rw [hsent, iterCount_append, iterCount_append, iterCount_iterEvents]
      simp [iterCount, pendingMsg, startedMsg, finishedMsg]
    · rw [huser, hc]
    · simpa using hclosed

/-- Witness of C1 at the scenario of `TestIterator` on linux/amd64: budget 3, a counter
as the function. -/
theorem iterator_trace_witness :
    (0 : Int) < 3 ∧ (3 : Int) + 3 ≤ linuxAmd64.maxChan ∧
      stopFree (List.replicate 21 Action.start) ∧
      5 * (3 : Int).toNat + 6 ≤ starts (List.replicate 21 Action.start) ∧
      ∃ t, NewIterator linuxAmd64 Nat.succ 3 = .ret t ∧
        (run (List.replicate 21 Action.start) (World.boot t 0)).sent =
          [pendingMsg, startedMsg, iterateMsg 2, iterateMsg 1, iterateMsg 0, finishedMsg] ∧
        (run (List.replicate 21 Action.start) (World.boot t 0)).calls = 3 ∧
        (run (List.replicate 21 Action.start) (World.boot t 0)).user = 3 := by
  have h0 : (0 : Int) < 3 := by decide
  have h1 : (3 : Int) + 3 ≤ linuxAmd64.maxChan := by decide
  have h2 : stopFree (List.replicate 21 Action.start) := by decide
  have h3 : 5 * (3 : Int).toNat + 6 ≤ starts (List.replicate 21 Action.start) := by decide
  obtain ⟨t, ht, hs, _, hc, hu, _⟩ :=
    iterator_trace linuxAmd64 Nat.succ 0 3 (List.replicate 21 Action.start) h0 h1 h2 h3
  exact ⟨h0, h1, h2, h3, t, ht, hs, hc, hu⟩

/-- Counterexample to C1 as stated, on linux/amd64: at the positive budget `n = 2^43` the
size `n + 3` is above what `make` accepts, and at `n = maxInt` the size `n + 3` wraps to
a negative `int`; in both cases `make` panics and `NewIterator` builds no thread, so
nothing is emitted and `f` never runs. -/
theorem iterator_trace_counterexample :
    (0 : Int) < 8796093022208 ∧
      (NewIterator linuxAmd64 Nat.succ 8796093022208 : Outcome (Thread Nat)) = Outcome.panics ∧
      (0 : Int) < maxInt ∧ wrapInt (maxInt + 3) = -9223372036854775806 ∧
      (NewIterator linuxAmd64 Nat.succ maxInt : Outcome (Thread Nat)) = Outcome.panics := by
  refine ⟨by decide, ?_, by decide, by decide, ?_⟩ <;>
    simp [NewIterator, makeThread, wrapInt, maxInt, Context.Background, linuxAmd64]

/-- C2: on every runtime, for every function `f`, `NewSimple(f)` returns a thread, and
every run of `Start` without an external `Stop`, once `Start` has executed its six statements, has enqueued
exactly Pending, Started, Finished (one Started, one Finished, no Iterate), has invoked
`f` exactly once, and has returned with the channel closed once and without a panic. -/
theorem simple_trace {α : Type} (rt : Runtime) (f : α → α) (u : α) (sched : List Action)
    (hfree : stopFree sched) (hlong : 6 ≤ starts sched) :
    ∃ t, NewSimple rt f = .ret t ∧
      (run sched (World.boot t u)).sent = [pendingMsg, startedMsg, finishedMsg] ∧
      iterCount (run sched (World.boot t u)).sent = 0 ∧
      (run sched (World.boot t u)).calls = 1 ∧
      (run sched (World.boot t u)).user = f u ∧
      (run sched (World.boot t u)).pc = .done ∧
      (run sched (World.boot t u)).fault = none ∧
      (run sched (World.boot t u)).t.Status.closed = true ∧
      (run sched (World.boot t u)).closes = 1 := by
  have hn : ThreadType.Simple ≠ .Simple → 0 ≤ (0 : Int) := fun _ => le_refl _
  refine ⟨fresh .Simple f 0 0, ?_, ?_⟩
  · rw [← New_simple rt f 0 0]
    exact New_ret rt .Simple f 0 0 hn (fun h => absurd rfl h)
  · obtain ⟨h, hpc⟩ := undisturbed_final (d := 0) (f := f) (u := u) hn sched hfree
      (by simpa [rank, passes] using hlong)
    have hsent := h.sent
    have hcalls := h.calls
    have huser := h.user
    have hclosed := h.closed
    have hcloses := h.closes
    rw [hpc] at hsent hcalls hclosed hcloses
    simp only [expSent, expCalls, passes, iterEvents_self] at hsent hcalls
    have hc : (run sched (World.boot (fresh ThreadType.Simple f 0 0) u)).calls = 1 := by
      simp at hcalls
      omega
    refine ⟨?_, ?_, hc, ?_, hpc, h.fault, ?_, ?_⟩
    · rw [hsent]; simp
    · rw [hsent]; simp [iterCount, pendingMsg, startedMsg, finishedMsg]
    · rw [huser, hc]; rfl
    · simpa using hclosed
    · simpa using hcloses

/-- Witness of C2 at the scenario of `TestSimple`, with a counter as the function. -/
theorem simple_trace_witness :
    stopFree (List.replicate 6 Action.start) ∧ 6 ≤ starts (List.replicate 6 Action.start) ∧
      ∃ t, NewSimple linuxAmd64 Nat.succ = .ret t ∧
        (run (List.replicate 6 Action.start) (World.boot t 0)).sent =
          [pendingMsg, startedMsg, finishedMsg] ∧
        (run (List.replicate 6 Action.start) (World.boot t 0)).calls = 1 := by
  have h2 : stopFree (List.replicate 6 Action.start) := by decide
  have h3 : 6 ≤ starts (List.replicate 6 Action.start) := by decide
  obtain ⟨t, ht, hs, _, hc, _⟩ :=
    simple_trace linuxAmd64 Nat.succ 0 (List.replicate 6 Action.start) h2 h3
  exact ⟨h2, h3, t, ht, hs, hc⟩

/-- C6 (amended): on every runtime, for every pattern and every budget `n` with `0 ≤ n`
for which the channel can be made (for an Iterator or a Ticker: `n + 3` is at most the
largest size `make` accepts), the constructor returns a thread whose channel has capacity 3 (`Simple`) or `n + 3`
(`Iterator`, `Ticker`); in the run of `Start` alone (no `Stop`, no receive) no send
statement ever finds the buffer full, after any number `k` of statements, and when
`Start` has returned the number of messages sent equals the capacity. -/
theorem buffer_never_full {α : Type} (rt : Runtime) (ty : ThreadType) (f : α → α) (u : α)
    (d n : Int) (k : Nat) (hn : 0 ≤ n) (hmax : ty ≠ .Simple → n + 3 ≤ rt.maxChan) :
    ∃ t, New rt ty f d n = .ret t ∧
      t.Status.cap = (if ty = .Simple then 3 else n.toNat + 3) ∧
      sendBlocked (run (List.replicate k Action.start) (World.boot t u)) = false ∧
      (run (List.replicate k Action.start) (World.boot t u)).sent.length ≤ t.Status.cap ∧
      (run (List.replicate (5 * (passes ty n).toNat + 6) Action.start) (World.boot t u)).pc
        = .done ∧
      (run (List.replicate (5 * (passes ty n).toNat + 6) Action.start)
        (World.boot t u)).sent.length = t.Status.cap ∧
      (run (List.replicate (5 * (passes ty n).toNat + 6) Action.start) (World.boot t u)).fault
        = none := by
  have hn2 : ty ≠ .Simple → 0 ≤ n := fun _ => hn
  have hp : 0 ≤ passes ty n := by cases ty <;> simp [passes] <;> exact hn
  have hfree : ∀ j, stopFree (List.replicate j Action.start) := by
    intro j a ha
    rw [List.eq_of_mem_replicate ha]
    decide
  have hcap : (fresh ty f d n).Status.cap = (if ty = .Simple then 3 else n.toNat + 3) := by
    cases ty <;> simp [fresh, passes] <;> omega
  refine ⟨fresh ty f d n, New_ret rt ty f d n hn2 hmax, hcap, ?_, ?_, ?_⟩
  · exact undisturbed_sendBlocked
      (undisturbed_run hn2 _ (hfree k) _ (undisturbed_boot ty f d n u hn2)).1 hn2
  · have h := (undisturbed_run hn2 _ (hfree k) _ (undisturbed_boot ty f d n u hn2)).1
    have hs := h.sent
    have hv := h.valid
    have hc := h.cap
    have hcap2 : ((fresh ty f d n).Status.cap : Int) = passes ty n + 3 := by
      simp [fresh]; omega
    rw [hs]
    generalize (run (List.replicate k Action.start) (World.boot (fresh ty f d n) u)).pc = pc at hv
    cases pc with
    | stop s => cases s <;> (simp [expSent, iterEvents_length]; omega)
    | _ => (simp [expSent, iterEvents_length, validPC] at hv ⊢; omega)
  · obtain ⟨h, hpc⟩ := undisturbed_final (d := d) (f := f) (u := u) hn2
      (List.replicate (5 * (passes ty n).toNat + 6) Action.start) (hfree _)
      (by simp only [starts, List.count_replicate_self, rank]; split <;> omega)
    refine ⟨hpc, ?_, h.fault⟩
    have hs := h.sent
    rw [hpc] at hs
    rw [hs, hcap]
    cases ty <;> simp [expSent, iterEvents_length, passes]

/-- Witness of C6 on linux/amd64 at an Iterator with budget 3 observed after 4 statements
of `Start`. -/
theorem buffer_never_full_witness :
    (0 : Int) ≤ 3 ∧ (3 : Int) + 3 ≤ linuxAmd64.maxChan ∧
      ∃ t, New linuxAmd64 ThreadType.Iterator Nat.succ 0 3 = .ret t ∧ t.Status.cap = 6 ∧
        sendBlocked (run (List.replicate 4 Action.start) (World.boot t 0)) = false ∧
        (run (List.replicate 21 Action.start) (World.boot t 0)).sent.length = 6 := by
  have h0 : (0 : Int) ≤ 3 := by decide
  have h1 : (3 : Int) + 3 ≤ linuxAmd64.maxChan := by decide
  obtain ⟨t, ht, hc, hb, _, _, hl, _⟩ :=
    buffer_never_full linuxAmd64 ThreadType.Iterator Nat.succ 0 0 3 4 h0 (fun _ => h1)
  exact ⟨h0, h1, t, ht, hc, hb, hl.trans hc⟩

/-- Counterexample to C6 as stated, on linux/amd64: at the budget `n = 2^43` the size
`n + 3` is above what `make` accepts and at `n = maxInt` it wraps to a negative `int`;
the Iterator and Ticker constructors panic, so no run exists. -/
theorem buffer_never_full_counterexample :
    (0 : Int) ≤ 8796093022208 ∧
      (New linuxAmd64 ThreadType.Iterator Nat.succ 0 8796093022208 : Outcome (Thread Nat))
        = Outcome.panics ∧
      (New linuxAmd64 ThreadType.Ticker Nat.succ 0 8796093022208 : Outcome (Thread Nat))
        = Outcome.panics ∧
      (0 : Int) ≤ maxInt ∧
      (New linuxAmd64 ThreadType.Iterator Nat.succ 0 maxInt : Outcome (Thread Nat))
        = Outcome.panics ∧
      (New linuxAmd64 ThreadType.Ticker Nat.succ 0 maxInt : Outcome (Thread Nat))
        = Outcome.panics := by
  refine ⟨by decide, ?_, ?_, by decide, ?_, ?_⟩ <;>
    simp [New, NewIterator, NewTicker, makeThread, wrapInt, maxInt, Context.Background,
      linuxAmd64]

theorem pausesOk_replicate (d : Int) :
    ∀ (k : Nat) (pauses : List Int), pausesOk (List.replicate k d) pauses = true →
      (k : Int) * d ≤ pauses.sum ∧ 0 ≤ pauses.sum ∧ pauses.length = k := by
  intro k
  induction k with
  | zero =>
    intro pauses h
    cases pauses with
    | nil => simp
    | cons p ps => simp [pausesOk] at h
  | succ k ih =>
    intro pauses h
    cases pauses with
    | nil => simp [List.replicate_succ, pausesOk] at h
    | cons p ps =>
      simp only [List.replicate_succ, pausesOk, Bool.and_eq_true, decide_eq_true_eq] at h
      obtain ⟨⟨h1, h2⟩, h3⟩ := h
      obtain ⟨i1, i2, i3⟩ := ih ps h3
      refine ⟨?_, ?_, ?_⟩
      · simp only [List.sum_cons]
        push_cast
        linarith
      · simp only [List.sum_cons]
        omega
      · simp [i3]

theorem undisturbed_sleeps {α : Type} {d : Int} {n : Int} {f : α → α} {u : α} {w : World α}
    (h : Undisturbed .Ticker d n f u w) (hpos : 0 < n) :
    w.slept = List.replicate w.slept.length d ∧ w.slept.length ≤ w.calls ∧
      w.calls ≤ w.slept.length + 1 := by
  have hs := h.slept
  have hc := h.calls
  have hv := h.valid
  simp only [if_true] at hs
  refine ⟨?_, ?_⟩
  · rw [hs]; simp
  · rw [hs]
    generalize w.pc = pc at hc hv
    cases pc with
    | loop l =>
      simp [expCalls, expSleeps, validPC, passes] at hc hv ⊢
      split <;> omega
    | _ => simp [expCalls, expSleeps, validPC, passes] at hc hv ⊢ <;> omega

/-- C8 (amended): on every runtime, for every budget `n` with `0 < n` for which the
channel can be made (`n + 3` is at most the largest size `make` accepts), every delay `d`
and every function `f`, `NewTicker(f, d, n)` returns a thread and, in every run of
`Start` without an external `Stop`: at any moment (schedule `pre`) every recorded call of
`time.Sleep` has argument `d`, and the number of sleeps is the number of invocations of
`f` or one less (a sleep follows an invocation); once `Start` has executed its `5n + 6`
statements (schedule `sched`) `f` has run `n` times and `time.Sleep(d)` was called
exactly `n - 1` times, none after the last invocation; so whatever the `n - 1` pauses
were (`pauses`: each at least `d` and not negative), the time slept is at least
`(n - 1) * d`. -/
theorem ticker_sleeps {α : Type} (rt : Runtime) (f : α → α) (u : α) (d n : Int)
    (pre sched : List Action) (pauses : List Int)
    (hpos : 0 < n) (hmax : n + 3 ≤ rt.maxChan) (hpre : stopFree pre) (hfree : stopFree sched)
    (hlong : 5 * n.toNat + 6 ≤ starts sched)
    (hpauses : pausesOk (List.replicate (n - 1).toNat d) pauses = true) :
    ∃ t, NewTicker rt f d n = .ret t ∧
      (run pre (World.boot t u)).slept
        = List.replicate (run pre (World.boot t u)).slept.length d ∧
      (run pre (World.boot t u)).slept.length ≤ (run pre (World.boot t u)).calls ∧
      (run pre (World.boot t u)).calls ≤ (run pre (World.boot t u)).slept.length + 1 ∧
      (run sched (World.boot t u)).pc = .done ∧
      (run sched (World.boot t u)).calls = n.toNat ∧
      (run sched (World.boot t u)).slept = List.replicate (n - 1).toNat d ∧
      pausesOk (run sched (World.boot t u)).slept pauses = true ∧
      (n - 1) * d ≤ pauses.sum ∧ 0 ≤ pauses.sum := by
  have hn : ThreadType.Ticker ≠ .Simple → 0 ≤ n := fun _ => by omega
  refine ⟨fresh .Ticker f d n, ?_, ?_⟩
  · rw [← New_ticker rt f d n]
    exact New_ret rt .Ticker f d n hn (fun _ => hmax)
  · have hp := undisturbed_sleeps
      (undisturbed_run hn pre hpre _ (undisturbed_boot .Ticker f d n u hn)).1 hpos
    obtain ⟨h, hpc⟩ := undisturbed_final (d := d) (f := f) (u := u) hn sched hfree
      (by simpa [rank, passes] using hlong)
    have hslept := h.slept
    have hcalls := h.calls
    rw [hpc] at hslept hcalls
    simp only [expSleeps, expCalls, passes, if_true] at hslept hcalls
    have hc : (run sched (World.boot (fresh ThreadType.Ticker f d n) u)).calls = n.toNat := by
      simp at hcalls
      omega
    obtain ⟨b1, b2, _⟩ := pausesOk_replicate d _ pauses hpauses
    have hk : (((n - 1).toNat : Nat) : Int) = n - 1 := by omega
    rw [hk] at b1
    refine ⟨hp.1, hp.2.1, hp.2.2, hpc, hc, hslept, ?_, b1, b2⟩
    rw [hslept]
    exact hpauses

/-- Witness of C8 at the scenario of `TestTicker` on linux/amd64: three ticks three
seconds apart, the first pause 3.7 ms longer than asked. -/
theorem ticker_sleeps_witness :
    (0 : Int) < 3 ∧ (3 : Int) + 3 ≤ linuxAmd64.maxChan ∧
      stopFree (List.replicate 9 Action.start) ∧
      stopFree (List.replicate 21 Action.start) ∧
      5 * (3 : Int).toNat + 6 ≤ starts (List.replicate 21 Action.start) ∧
      pausesOk (List.replicate ((3 : Int) - 1).toNat 3000000000) [3003700000, 3000000000]
        = true ∧
      ∃ t, NewTicker linuxAmd64 Nat.succ 3000000000 3 = .ret t ∧
        (run (List.replicate 21 Action.start) (World.boot t 0)).calls = 3 ∧
        (run (List.replicate 21 Action.start) (World.boot t 0)).slept
          = [3000000000, 3000000000] ∧
        ((3 : Int) - 1) * 3000000000 ≤ ([3003700000, 3000000000] : List Int).sum := by
  have h0 : (0 : Int) < 3 := by decide
  have h1 : (3 : Int) + 3 ≤ linuxAmd64.maxChan := by decide
  have h2 : stopFree (List.replicate 9 Action.start) := by decide
  have h3 : stopFree (List.replicate 21 Action.start) := by decide
  have h4 : 5 * (3 : Int).toNat + 6 ≤ starts (List.replicate 21 Action.start) := by decide
  have h5 : pausesOk (List.replicate ((3 : Int) - 1).toNat 3000000000)
      [3003700000, 3000000000] = true := by decide
  obtain ⟨t, ht, _, _, _, _, hc, hs, _, hsum, _⟩ :=
    ticker_sleeps linuxAmd64 Nat.succ 0 3000000000 3 (List.replicate 9 Action.start)
      (List.replicate 21 Action.start) [3003700000, 3000000000] h0 h1 h2 h3 h4 h5
  exact ⟨h0, h1, h2, h3, h4, h5, t, ht, hc, hs, hsum⟩

/-- Counterexample to C8 as stated, on linux/amd64.  (1) With the delay `d = -1` and budget
`n = 2`, `Start` makes the one call `time.Sleep(-1)`; no pause is negative, so the time
slept is never `(n - 1) * d = -1`.  (2) With `d` three seconds and `n = 3`, the pauses
3.0037 s and 3 s are possible and their sum is not `(n - 1) * d`: the time slept is not
fixed by the code.  (3) At the budgets `n = 2^43` and `n = maxInt` the constructor
panics. -/
theorem ticker_sleeps_counterexample :
    (∃ t, NewTicker linuxAmd64 Nat.succ (-1) 2 = .ret t ∧
        (run (List.replicate 16 Action.start) (World.boot t 0)).pc = .done ∧
        (run (List.replicate 16 Action.start) (World.boot t 0)).slept = [-1] ∧
        (∀ pauses, pausesOk (run (List.replicate 16 Action.start) (World.boot t 0)).slept
            pauses = true → pauses.sum ≠ (2 - 1) * (-1))) ∧
      (∃ t, NewTicker linuxAmd64 Nat.succ 3000000000 3 = .ret t ∧
        (run (List.replicate 21 Action.start) (World.boot t 0)).pc = .done ∧
        pausesOk (run (List.replicate 21 Action.start) (World.boot t 0)).slept
          [3003700000, 3000000000] = true ∧
        ([3003700000, 3000000000] : List Int).sum ≠ (3 - 1) * 3000000000) ∧
      (0 : Int) < 8796093022208 ∧
      (NewTicker linuxAmd64 Nat.succ 1 8796093022208 : Outcome (Thread Nat))
        = Outcome.panics ∧
      (0 : Int) < maxInt ∧
      (NewTicker linuxAmd64 Nat.succ 1 maxInt : Outcome (Thread Nat)) = Outcome.panics := by
  refine ⟨⟨fresh .Ticker Nat.succ (-1) 2, ?_, ?_, ?_, ?_⟩,
    ⟨fresh .Ticker Nat.succ 3000000000 3, ?_, ?_, ?_, by decide⟩,
    by decide, ?_, by decide, ?_⟩
  · rw [← New_ticker]
    exact New_ret linuxAmd64 .Ticker Nat.succ (-1) 2 (fun _ => by decide) (fun _ => by decide)
  · rfl
  · rfl
  · intro pauses hp
    have hs : (run (List.replicate 16 Action.start)
        (World.boot (fresh ThreadType.Ticker Nat.succ (-1) 2) 0)).slept
        = List.replicate 1 (-1) := rfl
    rw [hs] at hp
    obtain ⟨_, h2, _⟩ := pausesOk_replicate (-1) 1 pauses hp
    omega
  · rw [← New_ticker]
    exact New_ret linuxAmd64 .Ticker Nat.succ 3000000000 3 (fun _ => by decide)
      (fun _ => by decide)
  · rfl
  · rfl
  · simp [NewTicker, makeThread, wrapInt, maxInt, Context.Background, linuxAmd64]
  · simp [NewTicker, makeThread, wrapInt, maxInt, Context.Background, linuxAmd64]

/-! ## Runs with external calls of Stop -/

theorem makeThread_ret {α : Type} (rt : Runtime) (ctx : Context) (ty : ThreadType)
    (f : α → α) (t : Thread α) (h : makeThread rt ctx ty f = .ret t) :
    t.ctx = ctx ∧ t.Typ = ty ∧ t.F = f ∧ t.Status.buf = [pendingMsg] ∧
      t.Status.closed = false ∧ 0 < t.Status.cap := by
  unfold makeThread at h
  simp only at h
  split at h
  · exact absurd h (by simp)
  · split at h
    · exact absurd h (by simp)
    · simp only [Chan.send, List.length_nil, Bool.false_eq_true, if_false] at h
      split at h
      · rename_i hsend
        split at hsend
        · rename_i hcap
          simp only [SendResult.ok.injEq] at hsend
          simp only [Outcome.ret.injEq] at h
          subst h
          subst hsend
          simp
          omega
        · exact absurd hsend (by simp)
      · exact absurd h (by simp)
      · exact absurd h (by simp)

theorem New_ret_inv {α : Type} (rt : Runtime) (ty : ThreadType) (f : α → α) (d n : Int)
    (t : Thread α) (h : New rt ty f d n = .ret t) :
    t.ctx = ctxOf ty d n ∧ t.Typ = ty ∧ t.F = f ∧ t.Status.buf = [pendingMsg] ∧
      t.Status.closed = false ∧ 0 < t.Status.cap := by
  cases ty
  · exact makeThread_ret rt _ _ f t h
  · exact makeThread_ret rt _ _ f t h
  · exact makeThread_ret rt _ _ f t h

theorem sound_boot {α : Type} (t : Thread α) (u : α) (hc : t.Status.closed = false) :
    Sound (World.boot t u) := by
  constructor <;> simp [World.boot, hc]

theorem sound_send {α : Type} (m : message) (k : World α → World α) (w : World α)
    (h : Sound w)
    (hk : w.t.Status.closed = false → w.t.Status.buf.length < w.t.Status.cap →
      Sound (k { w with t := { w.t with Status := { w.t.Status with buf := w.t.Status.buf ++ [m] } },
                        sent := w.sent ++ [m] })) :
    Sound (trySend m k w) := by
  by_cases hc : w.t.Status.closed = true
  · simp only [trySend, Chan.send, hc, if_true]
    exact ⟨h.fifo, h.stopped, h.closedDone, h.startDone, h.callerDone, h.finished, h.callerCancel⟩
  · have hc2 : w.t.Status.closed = false := by simpa using hc
    by_cases hl : w.t.Status.buf.length < w.t.Status.cap
    · rw [trySend_ok m k w hc2 hl]
      exact hk hc2 hl
    · simp only [trySend, Chan.send, hc, hl, if_false]
      exact h

set_option maxHeartbeats 4000000 in
theorem sound_Stop_caller {α : Type} (s : StopPC) (w : World α) (h : Sound w)
    (hs : w.caller = some s ∨ (w.caller = none ∧ s = .cancel)) :
    Sound (Stop s callerGoto w) := by
  cases s with
  | cancel =>
    obtain ⟨h1, h2, h3, h4, h5, h6, h7⟩ := h
    simp only [Stop, callerGoto]
    constructor <;> simp_all
  | send =>
    simp only [Stop]
    apply sound_send _ _ _ h
    intro hc hl
    obtain ⟨h1, h2, h3, h4, h5, h6, h7⟩ := h
    simp only [callerGoto]
    constructor <;> simp_all
    · rw [← h1]; simp
  | close =>
    obtain ⟨h1, h2, h3, h4, h5, h6, h7⟩ := h
    simp only [Stop, Chan.close]
    by_cases hc : w.t.Status.closed = true
    · simp only [hc, if_true]
      exact ⟨h1, h2, h3, h4, h5, h6, h7⟩
    · simp only [hc, if_false, callerGoto]
      constructor <;> simp_all

set_option maxHeartbeats 4000000 in
theorem sound_Start {α : Type} (w : World α) (h : Sound w) : Sound (Start w) := by
  cases hpc : w.pc with
  | started =>
    simp only [Start, hpc]
    apply sound_send _ _ _ h
    intro hc hl
    obtain ⟨h1, h2, h3, h4, h5, h6, h7⟩ := h
    simp only [jump]
    constructor <;> simp_all
    · rw [← h1]; simp
  | switch =>
    obtain ⟨h1, h2, h3, h4, h5, h6, h7⟩ := h
    simp only [Start, hpc, jump]
    split
    · constructor <;> simp_all
    · split
      · constructor <;> simp_all
      · constructor <;> simp_all
    · split
      · constructor <;> simp_all
      · constructor <;> simp_all
  | simple =>
    obtain ⟨h1, h2, h3, h4, h5, h6, h7⟩ := h
    simp only [Start, hpc, jump, callF]
    constructor <;> simp_all
  | loop l =>
    obtain ⟨h1, h2, h3, h4, h5, h6, h7⟩ := h
    simp only [Start, hpc, jump]
    split <;> constructor <;> simp_all
  | iterate l =>
    simp only [Start, hpc, iterate]
    apply sound_send _ _ _ h
    intro hc hl
    obtain ⟨h1, h2, h3, h4, h5, h6, h7⟩ := h
    simp only [jump]
    constructor <;> simp_all
    · rw [← h1]; simp
  | select l =>
    obtain ⟨h1, h2, h3, h4, h5, h6, h7⟩ := h
    simp only [Start, hpc, jump]
    split <;> constructor <;> simp_all
  | call l =>
    obtain ⟨h1, h2, h3, h4, h5, h6, h7⟩ := h
    simp only [Start, hpc, jump, callF]
    constructor <;> simp_all
  | tick l =>
    obtain ⟨h1, h2, h3, h4, h5, h6, h7⟩ := h
    simp only [Start, hpc, jump]
    split
    · split <;> constructor <;> simp_all
    · constructor <;> simp_all
  | stop s =>
    cases s with
    | cancel =>
      obtain ⟨h1, h2, h3, h4, h5, h6, h7⟩ := h
      simp only [Start, hpc, Stop, startGoto]
      constructor <;> simp_all
    | send =>
      simp only [Start, hpc, Stop]
      apply sound_send _ _ _ h
      intro hc hl
      obtain ⟨h1, h2, h3, h4, h5, h6, h7⟩ := h
      simp only [startGoto]
      constructor <;> simp_all
      · rw [← h1]; simp
    | close =>
      obtain ⟨h1, h2, h3, h4, h5, h6, h7⟩ := h
      simp only [Start, hpc, Stop, Chan.close]
      by_cases hc : w.t.Status.closed = true
      · simp only [hc, if_true]
        constructor <;> simp_all
      · simp only [hc, if_false, startGoto]
        constructor <;> simp_all
  | done =>
    simp only [Start, hpc]
    exact h

theorem sound_recv {α : Type} (w : World α) (h : Sound w) : Sound (recv w) := by
  obtain ⟨h1, h2, h3, h4, h5, h6, h7⟩ := h
  unfold recv
  cases hb : w.t.Status.buf with
  | nil => exact ⟨h1, h2, h3, h4, h5, h6, h7⟩
  | cons m rest =>
    refine ⟨?_, h2, h3, h4, h5, h6, h7⟩
    simp [← h1, hb]

theorem sound_step {α : Type} (a : Action) (w : World α) (h : Sound w) : Sound (step a w) := by
  unfold step
  cases hf : w.fault with
  | some e => exact h
  | none =>
    cases a with
    | start => exact sound_Start w h
    | stop =>
      cases hc : w.caller with
      | none => exact sound_Stop_caller .cancel w h (Or.inr ⟨hc, rfl⟩)
      | some s => exact sound_Stop_caller s w h (Or.inl hc)
    | recv =>
      cases hc : w.caller with
      | none => exact sound_recv w h
      | some s => exact h

theorem sound_run {α : Type} (sched : List Action) :
    ∀ w : World α, Sound w → Sound (run sched w) := by
  induction sched with
  | nil => intro w h; exact h
  | cons a s ih => intro w h; exact ih _ (sound_step a w h)

theorem trySend_cases {α : Type} (P : World α → Prop) (m : message) (k : World α → World α)
    (w : World α) (hblocked : P w)
    (hpanic : w.t.Status.closed = true → P { w with fault := some (.sendOnClosed m) })
    (hok : w.t.Status.closed = false → w.t.Status.buf.length < w.t.Status.cap →
      P (k { w with t := { w.t with Status := { w.t.Status with buf := w.t.Status.buf ++ [m] } },
                    sent := w.sent ++ [m] })) :
    P (trySend m k w) := by
  by_cases hc : w.t.Status.closed = true
  · simp only [trySend, Chan.send, hc, if_true]
    exact hpanic hc
  · have hc2 : w.t.Status.closed = false := by simpa using hc
    by_cases hl : w.t.Status.buf.length < w.t.Status.cap
    · rw [trySend_ok m k w hc2 hl]
      exact hok hc2 hl
    · simp only [trySend, Chan.send, hc, hl, if_false]
      exact hblocked

theorem Stop_caller_cases {α : Type} (P : World α → Prop) (s : StopPC) (w : World α)
    (hsame : P w)
    (hfault : ∀ e, P { w with fault := some e })
    (hcancel : s = .cancel →
      P { w with t := { w.t with ctx := { w.t.ctx with done := true } }, caller := some .send })
    (hsend : s = .send → w.t.Status.closed = false →
      P { w with t := { w.t with Status := { w.t.Status with buf := w.t.Status.buf ++ [finishedMsg] } },
                 sent := w.sent ++ [finishedMsg], caller := some .close })
    (hclose : s = .close → w.t.Status.closed = false →
      P { w with t := { w.t with Status := { w.t.Status with closed := true } },
                 closes := w.closes + 1, caller := none, stops := w.stops + 1 }) :
    P (Stop s callerGoto w) := by
  cases s with
  | cancel => exact hcancel rfl
  | send =>
    simp only [Stop]
    apply trySend_cases
    · exact hsame
    · intro _; exact hfault _
    · intro hc _; exact hsend rfl hc
  | close =>
    simp only [Stop, Chan.close]
    by_cases hc : w.t.Status.closed = true
    · simp only [hc, if_true]; exact hfault _
    · simp only [hc, if_false, callerGoto]
      exact hclose rfl (by simpa using hc)

theorem recv_cases {α : Type} (P : World α → Prop) (w : World α) (hsame : P w)
    (htake : ∀ m rest, w.t.Status.buf = m :: rest →
      P { w with t := { w.t with Status := { w.t.Status with buf := rest } },
                 seen := w.seen ++ [m] }) :
    P (recv w) := by
  unfold recv
  cases hb : w.t.Status.buf with
  | nil => exact hsame
  | cons m rest => exact htake m rest hb

theorem step_cases {α : Type} (P : World α → Prop) (a : Action) (w : World α) (hsame : P w)
    (hstart : w.fault = none → P (Start w))
    (hstop : w.fault = none → ∀ s, (w.caller = some s ∨ (w.caller = none ∧ s = .cancel)) →
      P (Stop s callerGoto w))
    (hrecv : w.fault = none → w.caller = none → P (recv w)) :
    P (step a w) := by
  unfold step
  cases hf : w.fault with
  | some e => exact hsame
  | none =>
    cases a with
    | start => exact hstart hf
    | stop =>
      cases hc : w.caller with
      | none => exact hstop hf _ (Or.inr ⟨hc, rfl⟩)
      | some s => exact hstop hf _ (Or.inl hc)
    | recv =>
      cases hc : w.caller with
      | none => exact hrecv hf hc
      | some s => exact hsame

theorem looping_boot {α : Type} (t : Thread α) (u : α) (hty : t.Typ ≠ .Simple) :
    Looping (World.boot t u) := by
  constructor <;> simp [World.boot, inflight, hty]

set_option maxHeartbeats 4000000 in
theorem looping_Start {α : Type} (w : World α) (h : Looping w) : Looping (Start w) := by
  obtain ⟨h1, h2, h3⟩ := h
  cases hpc : w.pc with
  | started =>
    simp only [Start, hpc]
    apply trySend_cases
    · exact ⟨h1, h2, h3⟩
    · intro _; exact ⟨h1, h2, h3⟩
    · intro _ _; constructor <;> simp_all [jump, inflight]
  | switch =>
    simp only [Start, hpc, jump]
    split
    · simp_all
    · split <;> constructor <;> simp_all [inflight]
    · split <;> constructor <;> simp_all [inflight]
  | simple => exact absurd hpc h2
  | loop l =>
    simp only [Start, hpc, jump]
    split <;> constructor <;> simp_all [inflight]
  | iterate l =>
    simp only [Start, hpc, iterate]
    apply trySend_cases
    · exact ⟨h1, h2, h3⟩
    · intro _; exact ⟨h1, h2, h3⟩
    · intro _ _; constructor <;> simp_all [jump, inflight]
  | select l =>
    simp only [Start, hpc, jump]
    split <;> constructor <;> simp_all [inflight]
  | call l =>
    simp only [Start, hpc, jump, callF]
    constructor <;> simp_all [inflight]
  | tick l =>
    simp only [Start, hpc, jump]
    split
    · split <;> constructor <;> simp_all [inflight]
    · constructor <;> simp_all [inflight]
  | stop s =>
    cases s with
    | cancel =>
      simp only [Start, hpc, Stop, startGoto]
      constructor <;> simp_all [inflight]
    | send =>
      simp only [Start, hpc, Stop]
      apply trySend_cases
      · exact ⟨h1, h2, h3⟩
      · intro _; exact ⟨h1, h2, h3⟩
      · intro _ _; constructor <;> simp_all [startGoto, inflight]
    | close =>
      simp only [Start, hpc, Stop, Chan.close]
      split <;> constructor <;> simp_all [startGoto, inflight]
  | done =>
    simp only [Start, hpc]
    exact ⟨h1, h2, h3⟩

theorem looping_step {α : Type} (a : Action) (w : World α) (h : Looping w) :
    Looping (step a w) := by
  apply step_cases
  · exact h
  · intro _; exact looping_Start w h
  · intro _ s _
    apply Stop_caller_cases
    · exact h
    · intro e; exact ⟨h.typ, h.pc, h.calls⟩
    · intro _; exact ⟨h.typ, h.pc, h.calls⟩
    · intro _ _; exact ⟨h.typ, h.pc, h.calls⟩
    · intro _ _; exact ⟨h.typ, h.pc, h.calls⟩
  · intro _ _
    apply recv_cases
    · exact h
    · intro m rest _; exact ⟨h.typ, h.pc, h.calls⟩

theorem looping_run {α : Type} (sched : List Action) :
    ∀ w : World α, Looping w → Looping (run sched w) := by
  induction sched with
  | nil => intro w h; exact h
  | cons a s ih => intro w h; exact ih _ (looping_step a w h)

theorem quiet_Start {α : Type} (c i : Nat) (w : World α) (h : Looping w) (hq : Quiet c i w) :
    Quiet c i (Start w) := by
  obtain ⟨h1, h2, h3⟩ := h
  obtain ⟨hd, q2, q3⟩ := hq
  cases hpc : w.pc with
  | started =>
    simp only [Start, hpc]
    apply trySend_cases <;> simp_all [jump, inflight, Quiet]
  | switch =>
    simp only [Start, hpc, jump]
    split
    · simp_all
    · split <;> simp_all [inflight, Quiet]
    · split <;> simp_all [inflight, Quiet]
  | simple => exact absurd hpc h2
  | loop l =>
    simp only [Start, hpc, jump]
    split <;> simp_all [inflight, Quiet]
  | iterate l =>
    simp only [Start, hpc, iterate]
    apply trySend_cases <;> simp_all [jump, inflight, Quiet]
  | select l =>
    simp only [Start, hpc, jump, hd, if_true]
    simp_all [inflight, Quiet]
  | call l =>
    simp only [Start, hpc, jump, callF]
    simp_all [inflight, Quiet]
  | tick l =>
    simp only [Start, hpc, jump]
    split
    · split <;> simp_all [inflight, Quiet]
    · simp_all [inflight, Quiet]
  | stop s =>
    cases s with
    | cancel =>
      simp only [Start, hpc, Stop, startGoto]
      simp_all [inflight, Quiet]
    | send =>
      simp only [Start, hpc, Stop]
      apply trySend_cases <;> simp_all [startGoto, inflight, Quiet]
    | close =>
      simp only [Start, hpc, Stop, Chan.close]
      split <;> simp_all [startGoto, inflight, Quiet]
  | done =>
    simp only [Start, hpc]
    simp_all [Quiet]

theorem quiet_step {α : Type} (c i : Nat) (a : Action) (w : World α) (h : Looping w)
    (hq : Quiet c i w) : Quiet c i (step a w) := by
  apply step_cases
  · exact hq
  · intro _; exact quiet_Start c i w h hq
  · intro _ s _
    apply Stop_caller_cases
    · exact hq
    · intro e; exact hq
    · intro _; exact ⟨rfl, hq.2⟩
    · intro _ _; exact hq
    · intro _ _; exact hq
  · intro _ _
    apply recv_cases
    · exact hq
    · intro m rest _; exact hq

theorem quiet_run {α : Type} (c i : Nat) (sched : List Action) :
    ∀ w : World α, Looping w → Quiet c i w → Quiet c i (run sched w) := by
  induction sched with
  | nil => intro w _ hq; exact hq
  | cons a s ih =>
    intro w h hq
    exact ih (step a w) (looping_step a w h) (quiet_step c i a w h hq)

theorem reach {α : Type} (rt : Runtime) (ty : ThreadType) (f : α → α) (u : α) (d n : Int)
    (t : Thread α) (sched : List Action) (ht : New rt ty f d n = .ret t) :
    Sound (run sched (World.boot t u)) ∧
      (ty ≠ .Simple → Looping (run sched (World.boot t u))) := by
  obtain ⟨_, h2, _, _, h5, _⟩ := New_ret_inv rt ty f d n t ht
  refine ⟨sound_run sched _ (sound_boot t u h5), ?_⟩
  intro hty
  exact looping_run sched _ (looping_boot t u (by rw [h2]; exact hty))

/-- C9: on every runtime, for every Iterator or Ticker thread a constructor returned and
every interleaving of `Start`, external `Stop` calls and receives (`s1`, then `s2`):
(a) in every state the number of invocations of `f`, counting the one a pass has
committed to after its check, equals the number of checks that found the signal not set;
(b) a pass whose check finds the signal set leaves the loop for `Stop` without invoking `f`;
(c) once the signal is set and no invocation is in flight, `f` is never invoked again
and no later check finds the signal not set;
(d) when `Start` has returned the two numbers are equal. -/
theorem cancelled_pass_skips_f {α : Type} (rt : Runtime) (ty : ThreadType) (f : α → α)
    (u : α) (d n : Int) (t : Thread α) (s1 s2 : List Action) (l : Int)
    (hty : ty ≠ .Simple) (ht : New rt ty f d n = .ret t) :
    ((run s1 (World.boot t u)).calls + inflight (run s1 (World.boot t u)).pc
        = (run s1 (World.boot t u)).clear) ∧
      ((run s1 (World.boot t u)).pc = .select l →
        (run s1 (World.boot t u)).t.ctx.done = true →
        (run s1 (World.boot t u)).fault = none →
        (step .start (run s1 (World.boot t u))).pc = .stop .cancel ∧
          (step .start (run s1 (World.boot t u))).calls = (run s1 (World.boot t u)).calls ∧
          (step .start (run s1 (World.boot t u))).clear = (run s1 (World.boot t u)).clear) ∧
      ((run s1 (World.boot t u)).t.ctx.done = true →
        inflight (run s1 (World.boot t u)).pc = 0 →
        (run s2 (run s1 (World.boot t u))).calls = (run s1 (World.boot t u)).calls ∧
          (run s2 (run s1 (World.boot t u))).clear = (run s1 (World.boot t u)).clear) ∧
      ((run s1 (World.boot t u)).pc = .done →
        (run s1 (World.boot t u)).calls = (run s1 (World.boot t u)).clear) := by
  have hL := (reach rt ty f u d n t s1 ht).2 hty
  have hL2 := looping_run s2 _ hL
  refine ⟨hL.calls, ?_, ?_, ?_⟩
  · intro hpc hd hf
    simp [step, hf, Start, hpc, hd, jump]
  · intro hd hi
    have hq : Quiet (run s1 (World.boot t u)).calls 0 (run s1 (World.boot t u)) :=
      ⟨hd, by rw [hi]; rfl, by rw [hi]⟩
    obtain ⟨_, q2, q3⟩ := quiet_run _ _ s2 _ hL hq
    have h1 := hL.calls
    have h2 := hL2.calls
    omega
  · intro hpc
    have h1 := hL.calls
    rw [hpc] at h1
    simpa [inflight] using h1

/-- Witness of C9 on linux/amd64: an Iterator with budget 2 whose consumer cancels the
context while `Start` stands at the check of its first pass. -/
theorem cancelled_pass_skips_f_witness :
    ThreadType.Iterator ≠ ThreadType.Simple ∧
      New linuxAmd64 ThreadType.Iterator Nat.succ 0 2
        = .ret (fresh ThreadType.Iterator Nat.succ 0 2) ∧
      (run [.start, .start, .start, .start, .stop]
        (World.boot (fresh ThreadType.Iterator Nat.succ 0 2) 0)).pc = .select 1 ∧
      (run [.start, .start, .start, .start, .stop]
        (World.boot (fresh ThreadType.Iterator Nat.succ 0 2) 0)).t.ctx.done = true ∧
      (step .start (run [.start, .start, .start, .start, .stop]
        (World.boot (fresh ThreadType.Iterator Nat.succ 0 2) 0))).pc = .stop .cancel ∧
      (run [.start, .stop, .start, .recv, .start, .start]
        (run [.start, .start, .start, .start, .stop]
          (World.boot (fresh ThreadType.Iterator Nat.succ 0 2) 0))).calls = 0 := by
  have hty : ThreadType.Iterator ≠ ThreadType.Simple := by decide
  have ht : New linuxAmd64 ThreadType.Iterator Nat.succ 0 2
      = .ret (fresh ThreadType.Iterator Nat.succ 0 2) :=
    New_ret _ _ _ _ _ (fun _ => by decide) (fun _ => by decide)
  obtain ⟨_, hb, hc, _⟩ := cancelled_pass_skips_f linuxAmd64 ThreadType.Iterator Nat.succ 0 0 2
    (fresh ThreadType.Iterator Nat.succ 0 2) [.start, .start, .start, .start, .stop]
    [.start, .stop, .start, .recv, .start, .start] 1 hty ht
  exact ⟨hty, ht, rfl, rfl, (hb rfl rfl rfl).1, (hc rfl rfl).1⟩

theorem tally_boot {α : Type} (t : Thread α) (u : α) (hc : t.Status.closed = false) :
    Tally (World.boot t u) := by
  constructor <;> simp [World.boot, hc]

set_option maxHeartbeats 4000000 in
theorem tally_Start {α : Type} (w : World α) (h : Tally w) : Tally (Start w) := by
  obtain ⟨h1, h2, h3⟩ := h
  cases hpc : w.pc with
  | started =>
    simp only [Start, hpc]
    apply trySend_cases
    · exact ⟨h1, h2, h3⟩
    · intro _; exact ⟨h1, h2, h3⟩
    · intro _ _; constructor <;> simp_all [jump]
  | switch =>
    simp only [Start, hpc, jump]
    split
    · constructor <;> simp_all
    · split <;> constructor <;> simp_all
    · split <;> constructor <;> simp_all
  | simple => simp only [Start, hpc, jump, callF]; constructor <;> simp_all
  | loop l => simp only [Start, hpc, jump]; split <;> constructor <;> simp_all
  | iterate l =>
    simp only [Start, hpc, iterate]
    apply trySend_cases
    · exact ⟨h1, h2, h3⟩
    · intro _; exact ⟨h1, h2, h3⟩
    · intro _ _; constructor <;> simp_all [jump]
  | select l => simp only [Start, hpc, jump]; split <;> constructor <;> simp_all
  | call l => simp only [Start, hpc, jump, callF]; constructor <;> simp_all
  | tick l =>
    simp only [Start, hpc, jump]
    split
    · split <;> constructor <;> simp_all
    · constructor <;> simp_all
  | stop s =>
    cases s with
    | cancel => simp only [Start, hpc, Stop, startGoto]; constructor <;> simp_all
    | send =>
      simp only [Start, hpc, Stop]
      apply trySend_cases
      · exact ⟨h1, h2, h3⟩
      · intro _; exact ⟨h1, h2, h3⟩
      · intro _ _; constructor <;> simp_all [startGoto]
    | close =>
      simp only [Start, hpc, Stop, Chan.close]
      by_cases hc : w.t.Status.closed = true
      · simp only [hc, if_true]
        constructor <;> simp_all
      · have hz : w.closes = 0 := h3 (by simpa using hc)
        simp only [hc, if_false, startGoto]
        constructor <;> simp_all
  | done =>
    simp only [Start, hpc]
    exact ⟨h1, h2, h3⟩

theorem tally_step {α : Type} (a : Action) (w : World α) (h : Tally w) : Tally (step a w) := by
  apply step_cases
  · exact h
  · intro _; exact tally_Start w h
  · intro _ s _
    apply Stop_caller_cases
    · exact h
    · intro e; exact ⟨h.count, h.once, h.unclosed⟩
    · intro _; exact ⟨h.count, h.once, h.unclosed⟩
    · intro _ _; exact ⟨h.count, h.once, h.unclosed⟩
    · intro _ hc
      have hz := h.unclosed hc
      have h1 := h.count
      constructor <;> simp_all
  · intro _ _
    apply recv_cases
    · exact h
    · intro m rest _; exact ⟨h.count, h.once, h.unclosed⟩

theorem tally_run {α : Type} (sched : List Action) :
    ∀ w : World α, Tally w → Tally (run sched w) := by
  induction sched with
  | nil => intro w h; exact h
  | cons a s ih => intro w h; exact ih _ (tally_step a w h)

theorem ended_Start {α : Type} (w : World α) (h : Ended w) (hf : w.fault = none) :
    (Start w).fault ≠ none ∨
      ((Start w).fault = none ∧ Ended (Start w) ∧ toPanic (Start w).pc < toPanic w.pc) := by
  obtain ⟨h1, h2, h3⟩ := h
  cases hpc : w.pc with
  | started => left; simp [Start, hpc, trySend, Chan.send, h1]
  | switch =>
    simp only [Start, hpc, jump]
    split
    · right; simp_all [Ended, toPanic]
    · split
      · right; simp_all [Ended, toPanic]
      · left; simp
    · split
      · right; simp_all [Ended, toPanic]
      · left; simp
  | simple => right; simp_all [Start, jump, callF, Ended, toPanic]
  | loop l =>
    right
    simp only [Start, hpc, jump]
    split <;> simp_all [Ended, toPanic]
  | iterate l => left; simp [Start, hpc, iterate, trySend, Chan.send, h1]
  | select l => right; simp_all [Start, jump, Ended, toPanic]
  | call l => right; simp_all [Start, jump, callF, Ended, toPanic]
  | tick l =>
    right
    simp only [Start, hpc, jump]
    split
    · split <;> simp_all [Ended, toPanic]
    · simp_all [Ended, toPanic]
  | stop s =>
    cases s with
    | cancel => right; simp_all [Start, Stop, startGoto, Ended, toPanic]
    | send => left; simp [Start, hpc, Stop, trySend, Chan.send, h1]
    | close => left; simp [Start, hpc, Stop, Chan.close, h1]
  | done => exact absurd hpc h3

theorem ended_panics {α : Type} :
    ∀ (k : Nat) (w : World α), Ended w → toPanic w.pc ≤ k →
      (run (List.replicate k Action.start) w).fault ≠ none := by
  intro k
  induction k with
  | zero =>
    intro w h hk
    obtain ⟨_, _, h3⟩ := h
    exfalso
    revert hk h3
    cases w.pc with
    | stop s => cases s <;> simp [toPanic]
    | _ => simp [toPanic]
  | succ k ih =>
    intro w h hk
    rw [List.replicate_succ, run_cons]
    cases hf : w.fault with
    | some e =>
      have hfix : ∀ (s : List Action) (v : World α), v.fault = some e →
          (run s v).fault = some e := by
        intro s
        induction s with
        | nil => intro v hv; exact hv
        | cons a s ihs =>
          intro v hv
          rw [run_cons]
          have : step a v = v := by simp [step, hv]
          rw [this]
          exact ihs v hv
      have hs : step Action.start w = w := by simp [step, hf]
      rw [hs, hfix _ w hf]
      simp
    | none =>
      have hs : step Action.start w = Start w := by simp [step, hf]
      rw [hs]
      rcases ended_Start w h hf with h1 | ⟨_, h2, h3⟩
      · cases hf2 : (Start w).fault with
        | none => exact absurd hf2 h1
        | some e =>
          have hfix : ∀ (s : List Action) (v : World α), v.fault = some e →
              (run s v).fault = some e := by
            intro s
            induction s with
            | nil => intro v hv; exact hv
            | cons a s ihs =>
              intro v hv
              rw [run_cons]
              have : step a v = v := by simp [step, hv]
              rw [this]
              exact ihs v hv
          rw [hfix _ _ hf2]
          simp
      · exact ih (Start w) h2 (by omega)

theorem ended_step {α : Type} (a : Action) (w : World α) (h : Ended w) : Ended (step a w) := by
  obtain ⟨h1, h2, h3⟩ := h
  apply step_cases
  · exact ⟨h1, h2, h3⟩
  · intro hf
    rcases ended_Start w ⟨h1, h2, h3⟩ hf with hp | ⟨_, he, _⟩
    · cases hpc : w.pc with
      | started => simp only [Start, hpc]; apply trySend_cases <;> simp_all [jump, Ended]
      | switch =>
        simp only [Start, hpc, jump]
        split
        · simp_all [Ended]
        · split <;> simp_all [Ended]
        · split <;> simp_all [Ended]
      | simple => simp_all [Start, jump, callF, Ended]
      | loop l => simp only [Start, hpc, jump]; split <;> simp_all [Ended]
      | iterate l => simp only [Start, hpc, iterate]; apply trySend_cases <;> simp_all [jump, Ended]
      | select l => simp_all [Start, jump, Ended]
      | call l => simp_all [Start, jump, callF, Ended]
      | tick l =>
        simp only [Start, hpc, jump]
        split
        · split <;> simp_all [Ended]
        · simp_all [Ended]
      | stop s =>
        cases s with
        | cancel => simp_all [Start, Stop, startGoto, Ended]
        | send => simp only [Start, hpc, Stop]; apply trySend_cases <;> simp_all [startGoto, Ended]
        | close => simp_all [Start, Stop, Chan.close, Ended]
      | done => exact absurd hpc h3
    · exact he
  · intro _ s _
    apply Stop_caller_cases
    · exact ⟨h1, h2, h3⟩
    · intro e; exact ⟨h1, h2, h3⟩
    · intro _; exact ⟨h1, rfl, h3⟩
    · intro _ hc; rw [h1] at hc; exact absurd hc (by simp)
    · intro _ hc; rw [h1] at hc; exact absurd hc (by simp)
  · intro _ _
    apply recv_cases
    · exact ⟨h1, h2, h3⟩
    · intro m rest _; exact ⟨h1, h2, h3⟩

theorem ended_run {α : Type} (sched : List Action) :
    ∀ w : World α, Ended w → Ended (run sched w) := by
  induction sched with
  | nil => intro w h; exact h
  | cons a s ih => intro w h; exact ih _ (ended_step a w h)

/-- C7 (what the code does): on every runtime, for every thread a constructor returned
and every interleaving `s1` after which an external call of `Stop` has returned: the
channel is closed while `Start` has not returned; whatever happens next (`s2`), `Start`
never returns; and the next five statements of `Start` end in a panic: `Start` goes on
to its next statement on the channel (the Iterate send of the next pass when a pass
remains, else the Finished send or the `close` of its own `Stop`), and the channel is
closed. -/
theorem stop_then_start_panics {α : Type} (rt : Runtime) (ty : ThreadType) (f : α → α)
    (u : α) (d n : Int) (t : Thread α) (s1 s2 : List Action)
    (ht : New rt ty f d n = .ret t) (hstop : 0 < (run s1 (World.boot t u)).stops) :
    (run s1 (World.boot t u)).t.Status.closed = true ∧
      (run s1 (World.boot t u)).pc ≠ .done ∧
      (run s2 (run s1 (World.boot t u))).pc ≠ .done ∧
      (run (List.replicate 5 Action.start) (run s1 (World.boot t u))).fault ≠ none := by
  obtain ⟨_, _, _, _, h5, _⟩ := New_ret_inv rt ty f d n t ht
  have hS := sound_run s1 _ (sound_boot t u h5)
  have hT := tally_run s1 _ (tally_boot t u h5)
  have hc := hS.stopped hstop
  have hd := hS.closedDone hc
  have hpc : (run s1 (World.boot t u)).pc ≠ .done := by
    intro hdone
    have h1 := hT.count
    have h2 := hT.once
    rw [hdone] at h1
    simp at h1
    omega
  have hE : Ended (run s1 (World.boot t u)) := ⟨hc, hd, hpc⟩
  refine ⟨hc, hpc, (ended_run s2 _ hE).2.2, ?_⟩
  apply ended_panics 5 _ hE
  cases (run s1 (World.boot t u)).pc with
  | stop s => cases s <;> simp [toPanic]
  | _ => simp [toPanic]

/-- Witness of C7 on linux/amd64, the scenario of `TestCancel`: `NewTicker(f, 3s, 5)`;
`Start` sends Started and Iterate(4) and invokes `f`; the consumer receives Pending,
Started and Iterate(4), calls `Stop`, and receives Finished; `Start` then sleeps, begins
the next pass and calls `t.iterate(3)`: a further Iterate send, on the closed channel. -/
theorem stop_then_start_panics_witness :
    New linuxAmd64 ThreadType.Ticker Nat.succ 3000000000 5
        = .ret (fresh ThreadType.Ticker Nat.succ 3000000000 5) ∧
      0 < (run [.start, .start, .start, .start, .start, .start, .recv, .recv, .recv,
          .stop, .stop, .stop, .recv]
        (World.boot (fresh ThreadType.Ticker Nat.succ 3000000000 5) 0)).stops ∧
      (run [.start, .start, .start, .start, .start, .start, .recv, .recv, .recv,
          .stop, .stop, .stop, .recv]
        (World.boot (fresh ThreadType.Ticker Nat.succ 3000000000 5) 0)).seen
        = [pendingMsg, startedMsg, iterateMsg 4, finishedMsg] ∧
      (run [.start, .start, .start, .start, .start, .start, .recv, .recv, .recv,
          .stop, .stop, .stop, .recv]
        (World.boot (fresh ThreadType.Ticker Nat.succ 3000000000 5) 0)).fault = none ∧
      (run [.start, .start]
        (run [.start, .start, .start, .start, .start, .start, .recv, .recv, .recv,
            .stop, .stop, .stop, .recv]
          (World.boot (fresh ThreadType.Ticker Nat.succ 3000000000 5) 0))).pc
        = .iterate 3 ∧
      (run [.start, .start, .start]
        (run [.start, .start, .start, .start, .start, .start, .recv, .recv, .recv,
            .stop, .stop, .stop, .recv]
          (World.boot (fresh ThreadType.Ticker Nat.succ 3000000000 5) 0))).fault
        = some (.sendOnClosed (iterateMsg 3)) ∧
      (run (List.replicate 5 Action.start)
        (run [.start, .start, .start, .start, .start, .start, .recv, .recv, .recv,
            .stop, .stop, .stop, .recv]
          (World.boot (fresh ThreadType.Ticker Nat.succ 3000000000 5) 0))).fault ≠ none := by
  have ht : New linuxAmd64 ThreadType.Ticker Nat.succ 3000000000 5
      = .ret (fresh ThreadType.Ticker Nat.succ 3000000000 5) :=
    New_ret _ _ _ _ _ (fun _ => by decide) (fun _ => by decide)
  have hs : 0 < (run [.start, .start, .start, .start, .start, .start, .recv, .recv, .recv,
      .stop, .stop, .stop, .recv]
      (World.boot (fresh ThreadType.Ticker Nat.succ 3000000000 5) 0)).stops := by decide
  exact ⟨ht, hs, rfl, rfl, rfl, rfl,
    (stop_then_start_panics linuxAmd64 ThreadType.Ticker Nat.succ 0 3000000000 5 _ _ [] ht
      hs).2.2.2⟩

/-! ## Ticker and Iterator in lock step -/

theorem NewTicker_eq {α : Type} (rt : Runtime) (f : α → α) (d n : Int) :
    NewTicker rt f d n =
      match NewIterator rt f n with
      | .ret t => .ret (t.asTicker d)
      | .panics => .panics
      | .blocks => .blocks := by
  simp only [NewTicker, NewIterator, makeThread, Context.Background, Option.map_some', Chan.send]
  split <;> simp [Thread.asTicker]
  split <;> simp

set_option maxHeartbeats 4000000 in
theorem mirror_Start {α : Type} (d : Int) (wT wI : World α) (h : Mirror d wT wI) :
    Mirror d (Start wT) (Start wI) := by
  obtain ⟨hty, hsl, sl, hT, hd, hlen⟩ := h
  subst hT
  rcases wI with ⟨⟨⟨its, tm, dn⟩, ⟨cap, buf, closed⟩, typ, F⟩, pc, caller, user, fault, sent,
    seen, calls, slept, clear, stops, closes⟩
  simp only at hty hsl hlen
  subst hty hsl
  cases pc with
  | started =>
    refine ⟨?_, ?_, sl, ?_, hd, ?_⟩ <;>
      simp only [Start, trySend, Chan.send, jump, World.asTicker, Thread.asTicker] <;>
      split <;> simp_all [ticking]
  | switch =>
    cases its with
    | none =>
      refine ⟨?_, ?_, sl, ?_, hd, ?_⟩ <;>
        simp_all [Start, jump, World.asTicker, Thread.asTicker, ticking]
    | some k =>
      refine ⟨?_, ?_, sl, ?_, hd, ?_⟩ <;>
        simp_all [Start, jump, World.asTicker, Thread.asTicker, ticking]
  | simple =>
    refine ⟨?_, ?_, sl, ?_, hd, ?_⟩ <;>
      simp_all [Start, jump, callF, World.asTicker, Thread.asTicker, ticking]
    omega
  | loop l =>
    refine ⟨?_, ?_, sl, ?_, hd, ?_⟩ <;>
      simp only [Start, jump, World.asTicker, Thread.asTicker] <;>
      split <;> simp_all [ticking]
  | iterate l =>
    refine ⟨?_, ?_, sl, ?_, hd, ?_⟩ <;>
      simp only [Start, iterate, trySend, Chan.send, jump, World.asTicker, Thread.asTicker] <;>
      split <;> simp_all [ticking]
  | select l =>
    refine ⟨?_, ?_, sl, ?_, hd, ?_⟩ <;>
      simp only [Start, jump, World.asTicker, Thread.asTicker] <;>
      split <;> simp_all [ticking]
  | call l =>
    refine ⟨?_, ?_, sl, ?_, hd, ?_⟩ <;>
      simp_all [Start, jump, callF, World.asTicker, Thread.asTicker, ticking]
  | tick l =>
    by_cases hl : l = 0
    · refine ⟨?_, ?_, sl, ?_, hd, ?_⟩ <;>
        simp_all [Start, jump, World.asTicker, Thread.asTicker, ticking]
      omega
    · refine ⟨?_, ?_, sl ++ [d], ?_, ?_, ?_⟩
      · simp_all [Start, jump, World.asTicker, Thread.asTicker, ticking]
      · simp_all [Start, jump, World.asTicker, Thread.asTicker, ticking]
      · simp_all [Start, jump, World.asTicker, Thread.asTicker, ticking]
      · intro x hx
        rcases List.mem_append.mp hx with hx | hx
        · exact hd x hx
        · simpa using hx
      · simp_all [Start, jump, World.asTicker, Thread.asTicker, ticking]
  | stop s =>
    cases s with
    | cancel =>
      refine ⟨?_, ?_, sl, ?_, hd, ?_⟩ <;>
        simp_all [Start, Stop, startGoto, World.asTicker, Thread.asTicker, ticking]
    | send =>
      refine ⟨?_, ?_, sl, ?_, hd, ?_⟩ <;>
        simp only [Start, Stop, trySend, Chan.send, startGoto, World.asTicker, Thread.asTicker] <;>
        split <;> simp_all [ticking]
    | close =>
      refine ⟨?_, ?_, sl, ?_, hd, ?_⟩ <;>
        simp only [Start, Stop, Chan.close, startGoto, World.asTicker, Thread.asTicker] <;>
        split <;> simp_all [ticking]
  | done =>
    refine ⟨?_, ?_, sl, ?_, hd, ?_⟩ <;>
      simp_all [Start, World.asTicker, Thread.asTicker, ticking]

set_option maxHeartbeats 4000000 in
theorem mirror_step {α : Type} (d : Int) (a : Action) (wT wI : World α) (h : Mirror d wT wI) :
    Mirror d (step a wT) (step a wI) := by
  cases a with
  | start =>
    have hS := mirror_Start d wT wI h
    obtain ⟨hty, hsl, sl, hT, hd, hlen⟩ := h
    subst hT
    cases hf : wI.fault with
    | some e =>
      have h1 : step .start wI = wI := by simp [step, hf]
      have h2 : step .start (wI.asTicker d sl) = wI.asTicker d sl := by
        simp [step, hf, World.asTicker]
      rw [h1, h2]
      exact ⟨hty, hsl, sl, rfl, hd, hlen⟩
    | none =>
      have h1 : step .start wI = Start wI := by simp [step, hf]
      have h2 : step .start (wI.asTicker d sl) = Start (wI.asTicker d sl) := by
        simp [step, hf, World.asTicker]
      rw [h1, h2]
      exact hS
  | stop =>
    obtain ⟨hty, hsl, sl, hT, hd, hlen⟩ := h
    subst hT
    rcases wI with ⟨⟨⟨its, tm, dn⟩, ⟨cap, buf, closed⟩, typ, F⟩, pc, caller, user, fault, sent,
      seen, calls, slept, clear, stops, closes⟩
    simp only at hty hsl hlen
    subst hty hsl
    cases fault with
    | some e =>
      refine ⟨?_, ?_, sl, ?_, hd, ?_⟩ <;> simp_all [step, World.asTicker, Thread.asTicker]
    | none =>
      cases caller with
      | none =>
        refine ⟨?_, ?_, sl, ?_, hd, ?_⟩ <;>
          simp_all [step, Stop, callerGoto, World.asTicker, Thread.asTicker]
      | some s =>
        cases s with
        | cancel =>
          refine ⟨?_, ?_, sl, ?_, hd, ?_⟩ <;>
            simp_all [step, Stop, callerGoto, World.asTicker, Thread.asTicker]
        | send =>
          refine ⟨?_, ?_, sl, ?_, hd, ?_⟩ <;>
            simp only [step, Stop, trySend, Chan.send, callerGoto, World.asTicker,
              Thread.asTicker] <;>
            split <;> simp_all
        | close =>
          refine ⟨?_, ?_, sl, ?_, hd, ?_⟩ <;>
            simp only [step, Stop, Chan.close, callerGoto, World.asTicker, Thread.asTicker] <;>
            split <;> simp_all
  | recv =>
    obtain ⟨hty, hsl, sl, hT, hd, hlen⟩ := h
    subst hT
    rcases wI with ⟨⟨⟨its, tm, dn⟩, ⟨cap, buf, closed⟩, typ, F⟩, pc, caller, user, fault, sent,
      seen, calls, slept, clear, stops, closes⟩
    simp only at hty hsl hlen
    subst hty hsl
    cases fault with
    | some e =>
      refine ⟨?_, ?_, sl, ?_, hd, ?_⟩ <;> simp_all [step, World.asTicker, Thread.asTicker]
    | none =>
      cases caller with
      | some s =>
        refine ⟨?_, ?_, sl, ?_, hd, ?_⟩ <;> simp_all [step, World.asTicker, Thread.asTicker]
      | none =>
        cases buf with
        | nil =>
          refine ⟨?_, ?_, sl, ?_, hd, ?_⟩ <;>
            simp_all [step, recv, World.asTicker, Thread.asTicker]
        | cons m rest =>
          refine ⟨?_, ?_, sl, ?_, hd, ?_⟩ <;>
            simp_all [step, recv, World.asTicker, Thread.asTicker]

theorem mirror_run {α : Type} (d : Int) (sched : List Action) :
    ∀ wT wI : World α, Mirror d wT wI → Mirror d (run sched wT) (run sched wI) := by
  induction sched with
  | nil => intro wT wI h; exact h
  | cons a s ih => intro wT wI h; exact ih _ _ (mirror_step d a wT wI h)

theorem slept_Start {α : Type} (w : World α) :
    (Start w).slept = w.slept ∨
      ∃ l td, w.pc = .tick l ∧ l ≠ 0 ∧ w.t.Typ = .Ticker ∧ w.t.ctx.timer = some td ∧
        (Start w).slept = w.slept ++ [td] := by
  cases hpc : w.pc with
  | started => left; simp only [Start, hpc]; apply trySend_cases (fun v => v.slept = w.slept) <;> simp [jump]
  | switch =>
    left
    simp only [Start, hpc, jump]
    split
    · rfl
    · split <;> rfl
    · split <;> rfl
  | simple => left; simp [Start, hpc, jump, callF]
  | loop l => left; simp only [Start, hpc, jump]; split <;> rfl
  | iterate l => left; simp only [Start, hpc, iterate]; apply trySend_cases (fun v => v.slept = w.slept) <;> simp [jump]
  | select l => left; simp only [Start, hpc, jump]; split <;> rfl
  | call l => left; simp [Start, hpc, jump, callF]
  | tick l =>
    simp only [Start, hpc, jump]
    split
    · rename_i td hty htm
      by_cases hl : l = 0
      · left; simp [hl]
      · right; exact ⟨l, td, rfl, hl, hty, htm, by simp [hl]⟩
    · left; rfl
  | stop s =>
    left
    cases s with
    | cancel => simp [Start, hpc, Stop, startGoto]
    | send => simp only [Start, hpc, Stop]; apply trySend_cases (fun v => v.slept = w.slept) <;> simp [startGoto]
    | close => simp only [Start, hpc, Stop, Chan.close]; split <;> simp [startGoto]
  | done => left; simp [Start, hpc]

theorem slept_step {α : Type} (a : Action) (w : World α) :
    (step a w).slept = w.slept ∨
      (a = .start ∧ ∃ l td, w.pc = .tick l ∧ l ≠ 0 ∧ w.t.Typ = .Ticker ∧
        w.t.ctx.timer = some td ∧ (step a w).slept = w.slept ++ [td]) := by
  cases a with
  | start =>
    cases hf : w.fault with
    | some e => left; simp [step, hf]
    | none =>
      have h : step .start w = Start w := by simp [step, hf]
      rw [h]
      rcases slept_Start w with h1 | h1
      · exact Or.inl h1
      · exact Or.inr ⟨rfl, h1⟩
  | stop =>
    left
    unfold step
    cases hf : w.fault with
    | some e => rfl
    | none =>
      cases hc : w.caller <;>
        (apply Stop_caller_cases (fun v => v.slept = w.slept) <;> intros <;> rfl)
  | recv =>
    left
    unfold step
    cases hf : w.fault with
    | some e => rfl
    | none =>
      cases hc : w.caller with
      | some s => rfl
      | none =>
        apply recv_cases (fun v => v.slept = w.slept)
        · rfl
        · intros; rfl

/-- C10: on every runtime, for every function `f`, budget `n`, delay `d` and every
interleaving of `Start`, external `Stop` calls and receives (so every cancellation
point): `NewTicker(f, d, n)` and
`NewIterator(f, n)` either both fail to build a thread in the same way, or the two
programs run in lock step: after the same schedule the Ticker's state is the Iterator's
state but for the pattern, the delay stored in the context and the log of sleeps, so the
events enqueued and received, the invocations of `f` and its effect, the control points
and any panic are the same; the Iterator never sleeps; the Ticker's sleeps are all `d`
long, each following an invocation of its own; and a step `a` of the Ticker program adds
a sleep only when it is the statement of `Start` after an invocation (control point
`tick l`) with the remaining count `l` not 0. -/
theorem ticker_mirrors_iterator {α : Type} (rt : Runtime) (f : α → α) (u : α) (d n : Int)
    (sched : List Action) (a : Action) :
    match NewTicker rt f d n, NewIterator rt f n with
    | .ret tT, .ret tI =>
      (run sched (World.boot tT u)).sent = (run sched (World.boot tI u)).sent ∧
      (run sched (World.boot tT u)).seen = (run sched (World.boot tI u)).seen ∧
      (run sched (World.boot tT u)).calls = (run sched (World.boot tI u)).calls ∧
      (run sched (World.boot tT u)).user = (run sched (World.boot tI u)).user ∧
      (run sched (World.boot tT u)).pc = (run sched (World.boot tI u)).pc ∧
      (run sched (World.boot tT u)).fault = (run sched (World.boot tI u)).fault ∧
      (run sched (World.boot tT u)).t.Status = (run sched (World.boot tI u)).t.Status ∧
      (run sched (World.boot tT u)).t.ctx.done = (run sched (World.boot tI u)).t.ctx.done ∧
      (run sched (World.boot tI u)).slept = [] ∧
      (∃ sl, run sched (World.boot tT u) = (run sched (World.boot tI u)).asTicker d sl ∧
        (∀ x ∈ sl, x = d) ∧
        sl.length + ticking (run sched (World.boot tI u)).pc
          ≤ (run sched (World.boot tI u)).calls) ∧
      ((step a (run sched (World.boot tT u))).slept = (run sched (World.boot tT u)).slept ∨
        (a = .start ∧ ∃ l, (run sched (World.boot tT u)).pc = .tick l ∧ l ≠ 0 ∧
          (step a (run sched (World.boot tT u))).slept
            = (run sched (World.boot tT u)).slept ++ [d]))
    | .panics, .panics => True
    | .blocks, .blocks => True
    | _, _ => False := by
  rw [NewTicker_eq]
  cases hI : NewIterator rt f n with
  | panics => trivial
  | blocks => trivial
  | ret tI =>
    have hty : tI.Typ = .Iterator := (makeThread_ret rt _ _ f tI hI).2.1
    have h0 : Mirror d (World.boot (tI.asTicker d) u) (World.boot tI u) :=
      ⟨hty, rfl, [], rfl, by simp, by simp [World.boot, ticking]⟩
    obtain ⟨_, hsl, sl, hT, hd, hlen⟩ := mirror_run d sched _ _ h0
    have hstep := slept_step a (run sched (World.boot (tI.asTicker d) u))
    simp only
    refine ⟨?_, ?_, ?_, ?_, ?_, ?_, ?_, ?_, hsl, ⟨sl, hT, hd, hlen⟩, ?_⟩
    · rw [hT]; rfl
    · rw [hT]; rfl
    · rw [hT]; rfl
    · rw [hT]; rfl
    · rw [hT]; rfl
    · rw [hT]; rfl
    · rw [hT]; rfl
    · rw [hT]; rfl
    · rcases hstep with h1 | ⟨ha, l, td, hpc, hl, _, htm, h1⟩
      · exact Or.inl h1
      · refine Or.inr ⟨ha, l, hpc, hl, ?_⟩
        have htd : td = d := by
          rw [hT] at htm
          simpa [World.asTicker, Thread.asTicker] using htm.symm
        rw [h1, htd]

/-! ## Budgets below one -/

set_option maxHeartbeats 4000000 in
theorem idle_Start {α : Type} (w : World α) (h : Idle w) : Idle (Start w) := by
  obtain ⟨h1, h2, h3, h4⟩ := h
  cases hpc : w.pc with
  | started =>
    simp only [Start, hpc]
    apply trySend_cases
    · exact ⟨h1, h2, h3, h4⟩
    · intro _; exact ⟨h1, h2, h3, h4⟩
    · intro _ _; exact ⟨h1, h2, by simp [jump, idlePC], h4⟩
  | switch =>
    simp only [Start, hpc, jump]
    split
    · simp_all
    · split
      · rename_i loops hl
        exact ⟨h1, h2, by simpa [idlePC] using h2 loops hl, h4⟩
      · exact ⟨h1, h2, by simp [hpc, idlePC], h4⟩
    · split
      · rename_i td loops _ hl
        exact ⟨h1, h2, by simpa [idlePC] using h2 loops hl, h4⟩
      · exact ⟨h1, h2, by simp [hpc, idlePC], h4⟩
  | loop l =>
    rw [hpc] at h3
    simp only [idlePC] at h3
    have hl : ¬ l > 0 := by omega
    simp only [Start, hpc, jump, hl, if_false]
    exact ⟨h1, h2, by simp [idlePC], h4⟩
  | stop s =>
    cases s with
    | cancel =>
      simp only [Start, hpc, Stop, startGoto]
      exact ⟨h1, h2, by simp [idlePC], h4⟩
    | send =>
      simp only [Start, hpc, Stop]
      apply trySend_cases
      · exact ⟨h1, h2, h3, h4⟩
      · intro _; exact ⟨h1, h2, h3, h4⟩
      · intro _ _; exact ⟨h1, h2, by simp [startGoto, idlePC], h4⟩
    | close =>
      simp only [Start, hpc, Stop, Chan.close]
      split
      · exact ⟨h1, h2, by simp [startGoto, idlePC], h4⟩
      · exact ⟨h1, h2, by simp [hpc, idlePC], h4⟩
  | done =>
    simp only [Start, hpc]
    exact ⟨h1, h2, h3, h4⟩
  | simple => rw [hpc] at h3; exact absurd h3 (by simp [idlePC])
  | iterate l => rw [hpc] at h3; exact absurd h3 (by simp [idlePC])
  | select l => rw [hpc] at h3; exact absurd h3 (by simp [idlePC])
  | call l => rw [hpc] at h3; exact absurd h3 (by simp [idlePC])
  | tick l => rw [hpc] at h3; exact absurd h3 (by simp [idlePC])

theorem idle_step {α : Type} (a : Action) (w : World α) (h : Idle w) : Idle (step a w) := by
  apply step_cases
  · exact h
  · intro _; exact idle_Start w h
  · intro _ s _
    apply Stop_caller_cases
    · exact h
    · intro e; exact ⟨h.typ, h.budget, h.pc, h.calls⟩
    · intro _; exact ⟨h.typ, h.budget, h.pc, h.calls⟩
    · intro _ _; exact ⟨h.typ, h.budget, h.pc, h.calls⟩
    · intro _ _; exact ⟨h.typ, h.budget, h.pc, h.calls⟩
  · intro _ _
    apply recv_cases
    · exact h
    · intro m rest _; exact ⟨h.typ, h.budget, h.pc, h.calls⟩

theorem idle_run {α : Type} (sched : List Action) :
    ∀ w : World α, Idle w → Idle (run sched w) := by
  induction sched with
  | nil => intro w h; exact h
  | cons a s ih => intro w h; exact ih _ (idle_step a w h)

/-- C4 (what the code does): on every runtime, for every Iterator or Ticker thread built
with a budget `n < 1`, in every interleaving of `Start`, external `Stop` calls and receives, however
long, `f` is never invoked and `Start` never enters a pass of its loop: from the loop
guard it goes straight to `Stop`. -/
theorem nonpositive_budget_never_calls {α : Type} (rt : Runtime) (ty : ThreadType)
    (f : α → α) (u : α) (d n : Int) (t : Thread α) (sched : List Action)
    (hty : ty ≠ .Simple) (hn : n < 1) (ht : New rt ty f d n = .ret t) :
    (run sched (World.boot t u)).calls = 0 ∧ idlePC (run sched (World.boot t u)).pc := by
  obtain ⟨h1, h2, _, _, _, _⟩ := New_ret_inv rt ty f d n t ht
  have h0 : Idle (World.boot t u) := by
    refine ⟨by simp only [World.boot, h2]; exact hty, ?_, by simp [World.boot, idlePC], rfl⟩
    intro k hk
    simp only [World.boot, h1] at hk
    cases ty
    · exact absurd rfl hty
    · simp only [ctxOf, Context.Background, Option.some.injEq] at hk; omega
    · simp only [ctxOf, Context.Background, Option.some.injEq] at hk; omega
  have h := idle_run sched _ h0
  exact ⟨h.calls, h.pc⟩

/-- Witness of C4 on linux/amd64 at `NewIterator(f, 0)`: after the six statements of
`Start` the function has not run, and `Start` has returned having sent Pending, Started,
Finished. -/
theorem nonpositive_budget_never_calls_witness :
    ThreadType.Iterator ≠ ThreadType.Simple ∧ (0 : Int) < 1 ∧
      New linuxAmd64 ThreadType.Iterator Nat.succ 0 0
        = .ret (fresh ThreadType.Iterator Nat.succ 0 0) ∧
      (run (List.replicate 6 Action.start)
        (World.boot (fresh ThreadType.Iterator Nat.succ 0 0) 0)).calls = 0 ∧
      (run (List.replicate 6 Action.start)
        (World.boot (fresh ThreadType.Iterator Nat.succ 0 0) 0)).pc = .done ∧
      (run (List.replicate 6 Action.start)
        (World.boot (fresh ThreadType.Iterator Nat.succ 0 0) 0)).sent
        = [pendingMsg, startedMsg, finishedMsg] := by
  have hty : ThreadType.Iterator ≠ ThreadType.Simple := by decide
  have hn : (0 : Int) < 1 := by decide
  have ht : New linuxAmd64 ThreadType.Iterator Nat.succ 0 0
      = .ret (fresh ThreadType.Iterator Nat.succ 0 0) :=
    New_ret _ _ _ _ _ (fun _ => by decide) (fun _ => by decide)
  exact ⟨hty, hn, ht,
    (nonpositive_budget_never_calls linuxAmd64 ThreadType.Iterator Nat.succ 0 0 0 _
      (List.replicate 6 Action.start) hty hn ht).1, rfl, rfl⟩

/-! ## Construction and repeated Stop -/

/-- C3 (what the code does): on every runtime the constructors do not complete for every
budget.  With the budget -3 the channel has no buffer and the send of Pending in
`makeThread` blocks forever; with the budget -4 (or any smaller one) and with the budget
`maxInt` (where `n + 3` wraps) the size passed to `make` is negative and the constructor
panics.  With the budget -2 construction still completes, with a channel of capacity 1
holding Pending. -/
theorem constructor_fails_on_some_budgets {α : Type} (rt : Runtime) (f : α → α) (d : Int) :
    NewIterator rt f (-3) = .blocks ∧ NewTicker rt f d (-3) = .blocks ∧
      NewIterator rt f (-4) = .panics ∧ NewTicker rt f d (-4) = .panics ∧
      NewIterator rt f maxInt = .panics ∧ NewTicker rt f d maxInt = .panics ∧
      (∃ t, NewIterator rt f (-2) = .ret t ∧ t.Status.buf = [pendingMsg] ∧
        t.Status.cap = 1) ∧
      (∃ t, NewSimple rt f = .ret t ∧ t.Status.buf = [pendingMsg] ∧ t.Status.cap = 3) := by
  have hr := rt.room
  have h0 : ¬ rt.maxChan < 0 := by omega
  have h1 : ¬ rt.maxChan < 1 := by omega
  have h3 : ¬ rt.maxChan < 3 := by omega
  refine ⟨?_, ?_, ?_, ?_, ?_, ?_, ?_, ?_⟩ <;>
    simp [NewIterator, NewTicker, NewSimple, makeThread, wrapInt, maxInt, Context.Background,
      Chan.send, h0, h1, h3]

/-- C5 (what the code does): in any state in which the status channel is closed and nothing
has panicked, a further call of `Stop` panics at its send of Finished (a send on a closed
channel) before it reaches `close`: an external call made by the consumer (first part),
and the call `Start` makes itself at line 175 (second part). -/
theorem second_stop_panics {α : Type} (w : World α) (hf : w.fault = none)
    (hc : w.t.Status.closed = true) :
    (w.caller = none →
        (run [.stop, .stop] w).fault = some (.sendOnClosed finishedMsg) ∧
          (run [.stop, .stop] w).closes = w.closes) ∧
      (w.pc = .stop .cancel →
        (run [.start, .start] w).fault = some (.sendOnClosed finishedMsg) ∧
          (run [.start, .start] w).closes = w.closes) := by
  constructor
  · intro hcal
    simp [run, step, hf, hcal, Stop, callerGoto, trySend, Chan.send, hc]
  · intro hpc
    simp [run, step, hf, hpc, Start, Stop, startGoto, trySend, Chan.send, hc]

/-- Witness of C5: `NewSimple(f)` followed by two calls of `Stop`; also `Start` run to
completion followed by a call of `Stop`, and an Iterator whose consumer calls `Stop`
during the only invocation of `f`, after which `Start` calls `Stop` itself. -/
theorem second_stop_panics_witness :
    (run [.stop, .stop, .stop] (World.boot (fresh ThreadType.Simple Nat.succ 0 0) 0)).fault
        = none ∧
      (run [.stop, .stop, .stop]
        (World.boot (fresh ThreadType.Simple Nat.succ 0 0) 0)).t.Status.closed = true ∧
      (run [.stop, .stop, .stop] (World.boot (fresh ThreadType.Simple Nat.succ 0 0) 0)).caller
        = none ∧
      (run [.stop, .stop]
        (run [.stop, .stop, .stop] (World.boot (fresh ThreadType.Simple Nat.succ 0 0) 0))).fault
        = some (.sendOnClosed finishedMsg) ∧
      (run ([.start, .start, .start, .start, .start, .start] ++ [.stop, .stop])
        (World.boot (fresh ThreadType.Simple Nat.succ 0 0) 0)).fault
        = some (.sendOnClosed finishedMsg) ∧
      (run ([.start, .start, .start, .start, .start] ++ [.stop, .stop, .stop] ++
          [.start, .start, .start, .start, .start])
        (World.boot (fresh ThreadType.Iterator Nat.succ 0 1) 0)).fault
        = some (.sendOnClosed finishedMsg) := by
  have h := second_stop_panics
    (run [.stop, .stop, .stop] (World.boot (fresh ThreadType.Simple Nat.succ 0 0) 0)) rfl rfl
  exact ⟨rfl, rfl, rfl, (h.1 rfl).1, rfl, rfl⟩

end Grr
